import Mathlib

/-!
# Verification of the qwen-api streaming audio pipeline

A shallow embedding of the pure/state-passing core of the repository:

* `audio_converter.py` — `PCMToMP3StreamConverter` (PCM byte accumulator that
  slices threshold-sized blocks and hands them to an MP3 encoder);
* `services/audio_processor.py` — the PCM frame queue feeding the transcoder
  loop, and the sentence-buffering loop that chops the streamed chat response
  into TTS synthesis segments;
* `routes/audio_websocket.py` — the per-session out-of-order packet
  reassembly protocol that streams base64 audio packets into a sink file;
* `routes/vlm_websocket.py` — the dual audio+image session and its
  type-interleaving guard.

Modelling conventions:

* Bytes are `Nat`, byte strings are `List Nat`.
* Python `int` is `Int` (arbitrary precision, signed).
* base64 decoding is a fixed bijection between valid encodings and byte
  strings; the embedding works directly with the decoded bytes (decode is the
  identity) and models the length check on the encoded form via `b64Length`.
* The MP3 encode step (`_convert_pcm_to_mp3`) shells out to ffmpeg; it is
  modelled as the identity on the PCM block it is given (plus the source's
  explicit empty-input short-circuit), so that slicing, chunk counting and
  byte accounting can be reasoned about at the PCM level.
* Python float division in the buffer-size formula is modelled exactly over
  `ℚ`; for every parameter choice appearing in the repository the float
  computation is exact, so the two agree.
* A sink file is modelled by an open flag together with the list of byte
  strings passed to successive `write` calls (opening a fresh file writes
  nothing).
-/

/-- Length of the standard (padded) base64 encoding of `n` raw bytes. -/
def b64Length (n : Nat) : Nat := 4 * ((n + 2) / 3)

namespace AudioConverter

/-- State of `PCMToMP3StreamConverter` (audio_converter.py).  The Python
object keeps the constructor parameters, the computed `buffer_size`
threshold and the byte accumulator `pcm_buffer`. -/
structure PCMToMP3StreamConverter where
  sample_rate : Nat
  channels : Nat
  sample_width : Nat
  buffer_size : Nat
  pcm_buffer : List Nat
deriving Repr, DecidableEq

/-- `PCMToMP3StreamConverter.__init__`:
`buffer_size = int((sample_rate * buffer_duration_ms / 1000) * channels * sample_width)`.
The Python `/` is float division followed by `int` truncation; it is modelled
exactly over `ℚ` with `Int.floor` (all quantities are nonnegative). -/
def mkConverter (sample_rate channels sample_width buffer_duration_ms : Nat) :
    PCMToMP3StreamConverter :=
  { sample_rate := sample_rate
    channels := channels
    sample_width := sample_width
    buffer_size :=
      (Int.floor (((sample_rate * buffer_duration_ms : ℚ) / 1000)
        * channels * sample_width)).toNat
    pcm_buffer := [] }

/-- `_convert_pcm_to_mp3`: returns `b""` on empty input, otherwise encodes the
block with ffmpeg.  The encode is modelled as the identity on the block. -/
def convert_pcm_to_mp3 (pcm_data : List Nat) : List Nat :=
  if pcm_data.length = 0 then [] else pcm_data

/-- `add_pcm_data`: append the incoming bytes to the accumulator; if the
accumulator has reached `buffer_size`, slice exactly one threshold-sized block
off the front and return its encoding, otherwise return `b""`.  (Note the
source uses `if`, not `while`: at most one block is sliced per call.) -/
def add_pcm_data (c : PCMToMP3StreamConverter) (pcm_data : List Nat) :
    PCMToMP3StreamConverter × List Nat :=
  let buffer := c.pcm_buffer ++ pcm_data
  if c.buffer_size ≤ buffer.length then
    ({ c with pcm_buffer := buffer.drop c.buffer_size },
      convert_pcm_to_mp3 (buffer.take c.buffer_size))
  else
    ({ c with pcm_buffer := buffer }, [])

/-- `flush_remaining`: encode and return whatever is left in the accumulator
(empty result if the accumulator is empty). -/
def flush_remaining (c : PCMToMP3StreamConverter) :
    PCMToMP3StreamConverter × List Nat :=
  if 0 < c.pcm_buffer.length then
    ({ c with pcm_buffer := [] }, convert_pcm_to_mp3 c.pcm_buffer)
  else (c, [])

/-- Drive a sequence of `add_pcm_data` calls, collecting the chunks the caller
would observe (the transcoder loop in audio_processor.py only counts/emits a
chunk when the returned bytes are non-empty: `if mp3_data:`). -/
def runPushes (c : PCMToMP3StreamConverter) :
    List (List Nat) → PCMToMP3StreamConverter × List (List Nat)
  | [] => (c, [])
  | d :: ds =>
    let step := add_pcm_data c d
    let rest := runPushes step.1 ds
    (rest.1, (if step.2.isEmpty then [] else [step.2]) ++ rest.2)

theorem convert_eq_of_ne_nil {l : List Nat} (h : l ≠ []) :
    convert_pcm_to_mp3 l = l := by
  unfold convert_pcm_to_mp3
  simp [List.length_eq_zero, h]

/-- Core accounting invariant for `add_pcm_data`: as long as every individual
push is at most one threshold in size, the residual accumulator stays below
the threshold, every emitted chunk is exactly one threshold long, and the
emitted chunks followed by the residual reconstruct the pushed byte stream. -/
theorem runPushes_spec (B : Nat) :
    ∀ (pushes : List (List Nat)) (c : PCMToMP3StreamConverter),
      c.buffer_size = B → c.pcm_buffer.length < B →
      (∀ d ∈ pushes, d.length ≤ B) →
      (runPushes c pushes).1.buffer_size = B ∧
      (runPushes c pushes).1.pcm_buffer.length < B ∧
      (∀ o ∈ (runPushes c pushes).2, o.length = B) ∧
      (runPushes c pushes).2.flatten ++ (runPushes c pushes).1.pcm_buffer
        = c.pcm_buffer ++ pushes.flatten := by
  intro pushes
  induction pushes with
  | nil =>
    intro c hB hlt _
    simp [runPushes, hB, hlt]
  | cons d ds ih =>
    intro c hB hlt hsm
    have hd : d.length ≤ B := hsm d (List.mem_cons_self d ds)
    have hds : ∀ x ∈ ds, x.length ≤ B := fun x hx => hsm x (List.mem_cons_of_mem d hx)
    unfold runPushes add_pcm_data
    by_cases hfull : c.buffer_size ≤ (c.pcm_buffer ++ d).length
    · -- threshold reached: one block of size B is sliced off
      have hlen : (c.pcm_buffer ++ d).length = c.pcm_buffer.length + d.length := by
        simp
      have htake : ((c.pcm_buffer ++ d).take c.buffer_size).length = B := by
        rw [List.length_take, hB]
        omega
      have hBpos : 0 < B := by omega
      have hconv : convert_pcm_to_mp3 ((c.pcm_buffer ++ d).take c.buffer_size)
          = (c.pcm_buffer ++ d).take c.buffer_size := by
        apply convert_eq_of_ne_nil
        intro hnil
        rw [hnil] at htake
        simp at htake
        omega
      have hdroplen : ((c.pcm_buffer ++ d).drop c.buffer_size).length < B := by
        rw [List.length_drop, hB]
        omega
      have hrec := ih { c with pcm_buffer := (c.pcm_buffer ++ d).drop c.buffer_size }
        hB hdroplen hds
      simp only [hfull, if_pos]
      refine ⟨hrec.1, hrec.2.1, ?_, ?_⟩
      · intro o ho
        simp only [hconv] at ho
        have : ¬ ((c.pcm_buffer ++ d).take c.buffer_size).isEmpty := by
          rw [List.isEmpty_iff_length_eq_zero, htake]
          omega
        simp only [this, if_neg, Bool.not_eq_true] at ho
        rcases List.mem_append.mp ho with h1 | h2
        · rcases List.mem_singleton.mp h1 with rfl
          exact htake
        · exact hrec.2.2.1 o h2
      · have hne : ¬ ((c.pcm_buffer ++ d).take c.buffer_size).isEmpty := by
          rw [List.isEmpty_iff_length_eq_zero, htake]
          omega
        simp only [hconv, hne, if_neg, Bool.not_eq_true, List.singleton_append,
          List.flatten_cons]
        rw [List.append_assoc, hrec.2.2.2]
        show (c.pcm_buffer ++ d).take c.buffer_size
            ++ ((c.pcm_buffer ++ d).drop c.buffer_size ++ ds.flatten)
          = c.pcm_buffer ++ (d :: ds).flatten
        rw [← List.append_assoc, List.take_append_drop]
        simp
    · -- below threshold: bytes are buffered, nothing emitted
      have hlt2 : (c.pcm_buffer ++ d).length < B := by
        rw [hB] at hfull
        omega
      have hrec := ih { c with pcm_buffer := c.pcm_buffer ++ d } hB hlt2 hds
      simp only [hfull, if_neg, not_false_iff]
      refine ⟨hrec.1, hrec.2.1, ?_, ?_⟩
      · intro o ho
        simp only [List.isEmpty_nil, if_pos, List.nil_append] at ho
        exact hrec.2.2.1 o ho
      · simp only [List.isEmpty_nil, if_pos, List.nil_append]
        have heq := hrec.2.2.2
        simp only at heq
        rw [heq]
        simp

theorem join_length_uniform (B : Nat) :
    ∀ L : List (List Nat), (∀ o ∈ L, o.length = B) →
      L.flatten.length = L.length * B := by
  intro L
  induction L with
  | nil => simp
  | cons x xs ih =>
    intro h
    have hx : x.length = B := h x (List.mem_cons_self x xs)
    have hxs := ih (fun o ho => h o (List.mem_cons_of_mem x ho))
    simp [List.flatten, hx, hxs, Nat.succ_mul, Nat.add_comm]

theorem add_pcm_data_eq_of_le (c : PCMToMP3StreamConverter) (dta : List Nat)
    (hpos : 0 < c.buffer_size)
    (hle : c.buffer_size ≤ (c.pcm_buffer ++ dta).length) :
    add_pcm_data c dta
      = ({ c with pcm_buffer := (c.pcm_buffer ++ dta).drop c.buffer_size },
          (c.pcm_buffer ++ dta).take c.buffer_size) := by
  unfold add_pcm_data
  simp only [hle, if_pos]
  rw [convert_eq_of_ne_nil]
  intro hnil
  have hlen := congrArg List.length hnil
  simp only [List.length_take, List.length_nil] at hlen
  omega

theorem flush_remaining_eq_of_ne_nil (c : PCMToMP3StreamConverter)
    (h : c.pcm_buffer ≠ []) :
    flush_remaining c = ({ c with pcm_buffer := [] }, c.pcm_buffer) := by
  unfold flush_remaining
  rw [if_pos (List.length_pos.mpr h), convert_eq_of_ne_nil h]

theorem mkConverter_default_buffer_size :
    (mkConverter 24000 1 2 500).buffer_size = 24000 := by
  unfold mkConverter
  norm_num
  rfl

theorem mkConverter_small_eval :
    mkConverter 1 1 1 2000 = ⟨1, 1, 1, 2, []⟩ := by
  unfold mkConverter
  norm_num
  rfl

/-- C2 (amended): over any sequence of `add_pcm_data` calls in which each
individual push carries at most one threshold `B` of bytes (as the TTS PCM
frames do), with cumulative byte count `T` not a multiple of `B`, the push
calls emit exactly `T / B` chunks (each exactly `B` bytes), `flush_remaining`
then emits one final chunk that is exactly the buffered remainder of
`T % B` bytes, and the emitted chunks concatenated with the flushed remainder
reproduce the full pushed byte stream.  (The unamended claim, for arbitrary
push sizes, fails: a single push can cross the threshold several times but
`add_pcm_data` slices at most one block per call.) -/
theorem add_pcm_data_chunk_accounting (c : PCMToMP3StreamConverter)
    (pushes : List (List Nat))
    (hbuf : c.pcm_buffer = []) (hB : 0 < c.buffer_size)
    (hsmall : ∀ d ∈ pushes, d.length ≤ c.buffer_size)
    (hrem : pushes.flatten.length % c.buffer_size ≠ 0) :
    (runPushes c pushes).2.length = pushes.flatten.length / c.buffer_size ∧
    (flush_remaining (runPushes c pushes).1).2
        = (runPushes c pushes).1.pcm_buffer ∧
    (flush_remaining (runPushes c pushes).1).2.length
        = pushes.flatten.length % c.buffer_size ∧
    (runPushes c pushes).2.flatten ++ (flush_remaining (runPushes c pushes).1).2
        = pushes.flatten := by
  have hlt0 : c.pcm_buffer.length < c.buffer_size := by
    rw [hbuf]
    simpa using hB
  have h := runPushes_spec c.buffer_size pushes c rfl hlt0 hsmall
  have hjoin : (runPushes c pushes).2.flatten
      ++ (runPushes c pushes).1.pcm_buffer = pushes.flatten := by
    have := h.2.2.2
    rw [hbuf] at this
    simpa using this
  have hulen : (runPushes c pushes).2.flatten.length
      = (runPushes c pushes).2.length * c.buffer_size :=
    join_length_uniform c.buffer_size _ h.2.2.1
  have hT : (runPushes c pushes).2.length * c.buffer_size
      + (runPushes c pushes).1.pcm_buffer.length = pushes.flatten.length := by
    have hl := congrArg List.length hjoin
    simpa [hulen] using hl
  have hrlt : (runPushes c pushes).1.pcm_buffer.length < c.buffer_size := h.2.1
  have hmod : pushes.flatten.length % c.buffer_size
      = (runPushes c pushes).1.pcm_buffer.length := by
    rw [← hT, Nat.add_comm, Nat.mul_comm, Nat.add_mul_mod_self_left]
    exact Nat.mod_eq_of_lt hrlt
  have hdiv : pushes.flatten.length / c.buffer_size
      = (runPushes c pushes).2.length := by
    rw [← hT, Nat.add_comm, Nat.mul_comm, Nat.add_mul_div_left _ _ hB,
      Nat.div_eq_of_lt hrlt, Nat.zero_add]
  have hne : (runPushes c pushes).1.pcm_buffer ≠ [] := by
    intro hnil
    apply hrem
    rw [hmod, hnil]
    rfl
  have hflush := flush_remaining_eq_of_ne_nil (runPushes c pushes).1 hne
  refine ⟨hdiv.symm, ?_, ?_, ?_⟩
  · rw [hflush]
  · rw [hflush, hmod]
  · rw [hflush]
    exact hjoin

/-- C2 witness: threshold 2, pushes of 2 and 1 bytes (T = 3): one chunk from
push (3 / 2 = 1), a 1-byte remainder (3 % 2 = 1) from flush, bytes conserved. -/
theorem add_pcm_data_chunk_accounting_witness :
    (runPushes (⟨1, 1, 1, 2, []⟩ : PCMToMP3StreamConverter) [[1, 2], [3]]).2.length
        = [[1, 2], [3]].flatten.length
          / (⟨1, 1, 1, 2, []⟩ : PCMToMP3StreamConverter).buffer_size ∧
    (flush_remaining (runPushes (⟨1, 1, 1, 2, []⟩ : PCMToMP3StreamConverter)
          [[1, 2], [3]]).1).2
        = (runPushes (⟨1, 1, 1, 2, []⟩ : PCMToMP3StreamConverter) [[1, 2], [3]]).1.pcm_buffer ∧
    (flush_remaining (runPushes (⟨1, 1, 1, 2, []⟩ : PCMToMP3StreamConverter)
          [[1, 2], [3]]).1).2.length
        = [[1, 2], [3]].flatten.length
          % (⟨1, 1, 1, 2, []⟩ : PCMToMP3StreamConverter).buffer_size ∧
    (runPushes (⟨1, 1, 1, 2, []⟩ : PCMToMP3StreamConverter) [[1, 2], [3]]).2.flatten
        ++ (flush_remaining (runPushes (⟨1, 1, 1, 2, []⟩ : PCMToMP3StreamConverter)
          [[1, 2], [3]]).1).2
        = [[1, 2], [3]].flatten :=
  add_pcm_data_chunk_accounting ⟨1, 1, 1, 2, []⟩ [[1, 2], [3]] rfl (by decide)
    (by decide) (by decide)

/-- C2 counterexample: a converter built by the constructor with threshold
B = 2 receives a single push of T = 5 bytes.  The claim as stated predicts
`floor(T/B) = 2` chunks from push and a final flush chunk of `T % B = 1`
byte; the code emits exactly 1 chunk from push (the `if` slices at most one
block per call) and the flush chunk carries the whole 3-byte leftover. -/
theorem add_pcm_data_single_slice_counterexample :
    (runPushes (mkConverter 1 1 1 2000) [[0, 0, 0, 0, 0]]).2.length = 1 ∧
    [[0, 0, 0, 0, 0]].flatten.length / (mkConverter 1 1 1 2000).buffer_size = 2 ∧
    [[0, 0, 0, 0, 0]].flatten.length % (mkConverter 1 1 1 2000).buffer_size = 1 ∧
    (flush_remaining (runPushes (mkConverter 1 1 1 2000) [[0, 0, 0, 0, 0]]).1).2.length
        = 3 := by
  rw [mkConverter_small_eval]
  decide

/-- C9: with the default parameters (24 kHz, mono, 16-bit, 500 ms) the
threshold is exactly 24000 bytes; pushing any 24001 bytes yields exactly one
chunk from `add_pcm_data`, namely (the encoding of) its first 24000 bytes,
after which `flush_remaining` yields the chunk for the remaining 1 byte. -/
theorem default_converter_24001_bytes (data : List Nat) (h : data.length = 24001) :
    (mkConverter 24000 1 2 500).buffer_size = 24000 ∧
    (add_pcm_data (mkConverter 24000 1 2 500) data).2 = data.take 24000 ∧
    (add_pcm_data (mkConverter 24000 1 2 500) data).2.length = 24000 ∧
    (add_pcm_data (mkConverter 24000 1 2 500) data).1.pcm_buffer = data.drop 24000 ∧
    (flush_remaining (add_pcm_data (mkConverter 24000 1 2 500) data).1).2
        = data.drop 24000 ∧
    (flush_remaining (add_pcm_data (mkConverter 24000 1 2 500) data).1).2.length
        = 1 := by
  have hb := mkConverter_default_buffer_size
  have hp : (mkConverter 24000 1 2 500).pcm_buffer = [] := rfl
  have hle : (mkConverter 24000 1 2 500).buffer_size
      ≤ ((mkConverter 24000 1 2 500).pcm_buffer ++ data).length := by
    rw [hb, hp]
    simp [h]
  have hstep := add_pcm_data_eq_of_le (mkConverter 24000 1 2 500) data
    (by rw [hb]; omega) hle
  rw [hp] at hstep
  simp only [List.nil_append] at hstep
  have hdlen : (data.drop 24000).length = 1 := by
    rw [List.length_drop, h]
  have hdne : data.drop 24000 ≠ [] := by
    intro hnil
    rw [hnil] at hdlen
    simp at hdlen
  have hflush := flush_remaining_eq_of_ne_nil (add_pcm_data (mkConverter 24000 1 2 500) data).1
    (by rw [hstep, hb]; exact hdne)
  refine ⟨hb, ?_, ?_, ?_, ?_, ?_⟩
  · rw [hstep, hb]
  · rw [hstep, hb, List.length_take, h]
    omega
  · rw [hstep, hb]
  · rw [hflush, hstep, hb]
  · rw [hflush, hstep, hb, hdlen]

/-- C9 witness at the concrete input `replicate 24001 0`. -/
theorem default_converter_24001_bytes_witness :
    (List.replicate 24001 (0 : Nat)).length = 24001 ∧
    ((mkConverter 24000 1 2 500).buffer_size = 24000 ∧
    (add_pcm_data (mkConverter 24000 1 2 500) (List.replicate 24001 0)).2
        = (List.replicate 24001 0).take 24000 ∧
    (add_pcm_data (mkConverter 24000 1 2 500) (List.replicate 24001 0)).2.length = 24000 ∧
    (add_pcm_data (mkConverter 24000 1 2 500) (List.replicate 24001 0)).1.pcm_buffer
        = (List.replicate 24001 0).drop 24000 ∧
    (flush_remaining (add_pcm_data (mkConverter 24000 1 2 500)
          (List.replicate 24001 0)).1).2
        = (List.replicate 24001 0).drop 24000 ∧
    (flush_remaining (add_pcm_data (mkConverter 24000 1 2 500)
          (List.replicate 24001 0)).1).2.length = 1) :=
  ⟨List.length_replicate 24001 0,
    default_converter_24001_bytes (List.replicate 24001 0)
      (List.length_replicate 24001 0)⟩

end AudioConverter

namespace FrameQueue

/-- State of an `asyncio.Queue`: its `maxsize` bound (0 means unbounded, the
asyncio default) and its items, here PCM frames. -/
structure AsyncQueue where
  maxsize : Int
  items : List (List Nat)
deriving Repr, DecidableEq

/-- `asyncio.Queue.full()`: always `False` for `maxsize <= 0`, otherwise
`qsize() >= maxsize`. -/
def AsyncQueue.full (q : AsyncQueue) : Bool :=
  if q.maxsize ≤ 0 then false else decide ((q.items.length : Int) ≥ q.maxsize)

/-- `asyncio.Queue.put_nowait`: raise `QueueFull` (second component `true`)
when the queue is full, otherwise append the item without blocking. -/
def AsyncQueue.put_nowait (q : AsyncQueue) (x : List Nat) : AsyncQueue × Bool :=
  if q.full then (q, true) else ({ q with items := q.items ++ [x] }, false)

/-- `audio_callback` (audio_processor.py, `streaming_chat_with_tts`): put the
PCM frame on the queue with `put_nowait`; `QueueFull` is caught, the frame
dropped and the event logged — the caller is never blocked. -/
def audio_callback (q : AsyncQueue) (audio_bytes : List Nat) : AsyncQueue :=
  (q.put_nowait audio_bytes).1

/-- The queue the code actually constructs: `pcm_queue = asyncio.Queue()`,
i.e. the default `maxsize = 0` (unbounded). -/
def mkPcmQueue : AsyncQueue := ⟨0, []⟩

/-- Deliver a sequence of frames to the callback. -/
def runCallbacks (q : AsyncQueue) (frames : List (List Nat)) : AsyncQueue :=
  frames.foldl audio_callback q

theorem runCallbacks_length_of_unbounded (q : AsyncQueue) (hq : q.maxsize = 0) :
    ∀ frames : List (List Nat),
      (runCallbacks q frames).items.length = q.items.length + frames.length ∧
      (runCallbacks q frames).maxsize = 0 := by
  intro frames
  induction frames generalizing q with
  | nil => simp [runCallbacks, hq]
  | cons f fs ih =>
    have hfull : q.full = false := by
      unfold AsyncQueue.full
      rw [hq]
      simp
    have hstep : audio_callback q f = { q with items := q.items ++ [f] } := by
      unfold audio_callback AsyncQueue.put_nowait
      rw [hfull]
      simp
    have := ih { q with items := q.items ++ [f] } hq
    unfold runCallbacks at this ⊢
    rw [List.foldl_cons, hstep]
    refine ⟨?_, this.2⟩
    rw [this.1]
    simp
    omega

/-- C3 counterexample: the claim asserts a fixed capacity that the PCM frame
queue's size never exceeds.  The code constructs `asyncio.Queue()` with the
default `maxsize = 0`, which is unbounded: for any proposed capacity,
delivering `cap + 1` frames to the callback makes the queue longer. -/
theorem pcm_queue_unbounded_counterexample :
    ¬ ∃ cap : Nat, ∀ frames : List (List Nat),
        (runCallbacks mkPcmQueue frames).items.length ≤ cap := by
  rintro ⟨cap, hcap⟩
  have h := (runCallbacks_length_of_unbounded mkPcmQueue rfl
    (List.replicate (cap + 1) [])).1
  have hle := hcap (List.replicate (cap + 1) [])
  rw [h, List.length_replicate] at hle
  simp only [mkPcmQueue] at hle
  omega

/-- C3 (amended): every PCM frame handed to `audio_callback` is enqueued with
`put_nowait`, which never blocks: when the queue is full the frame is dropped
(the `QueueFull` handler logs and returns), otherwise it is appended.  But
the queue the code builds is `asyncio.Queue()` with the default `maxsize = 0`,
which asyncio treats as unbounded — `full()` is always false, so the drop
branch is unreachable and no fixed capacity bounds the queue's size. -/
theorem audio_callback_enqueue_amended :
    (∀ (q : AsyncQueue) (x : List Nat), q.full = true → audio_callback q x = q) ∧
    (∀ (q : AsyncQueue) (x : List Nat), q.full = false →
        (audio_callback q x).items = q.items ++ [x]) ∧
    mkPcmQueue.maxsize = 0 ∧
    (∀ q : AsyncQueue, q.maxsize = 0 → q.full = false) := by
  refine ⟨?_, ?_, rfl, ?_⟩
  · intro q x hq
    unfold audio_callback AsyncQueue.put_nowait
    rw [hq]
    simp
  · intro q x hq
    unfold audio_callback AsyncQueue.put_nowait
    rw [hq]
    simp
  · intro q hq
    unfold AsyncQueue.full
    rw [hq]
    simp

/-- C3 witness: concrete instances of the amended statement — a full queue of
capacity 1 drops the frame; the unbounded queue built by the code appends it. -/
theorem audio_callback_enqueue_amended_witness :
    audio_callback ⟨1, [[9]]⟩ [7] = ⟨1, [[9]]⟩ ∧
    (audio_callback mkPcmQueue [7]).items = mkPcmQueue.items ++ [[7]] ∧
    AsyncQueue.full ⟨1, [[9]]⟩ = true ∧
    mkPcmQueue.full = false :=
  ⟨audio_callback_enqueue_amended.1 ⟨1, [[9]]⟩ [7] (by decide),
    audio_callback_enqueue_amended.2.1 mkPcmQueue [7]
      (audio_callback_enqueue_amended.2.2.2 mkPcmQueue rfl),
    by decide,
    audio_callback_enqueue_amended.2.2.2 mkPcmQueue rfl⟩

end FrameQueue

namespace TTSLoop

/-- `sentence_endings` (audio_processor.py, `streaming_chat_with_tts`). -/
def sentence_endings : List Char := ['。', '！', '？', '.', '!', '?', '\n']

/-- Whitespace characters removed by Python `str.strip()` (the ASCII ones;
no other whitespace appears in the properties below). -/
def isPySpace (c : Char) : Bool :=
  c == ' ' || c == '\t' || c == '\n' || c == '\r' || c == '\x0b' || c == '\x0c'

/-- Python `str.strip()`: drop leading and trailing whitespace. -/
def pyStrip (l : List Char) : List Char :=
  ((l.dropWhile isPySpace).reverse.dropWhile isPySpace).reverse

/-- State of the delta loop in `streaming_chat_with_tts`: the accumulated
full response, the pending text buffer, the count of segments sent to the
TTS engine, and the log of segments passed to `client.append_text`. -/
structure TTSLoopState where
  assistant_response : List Char
  text_buffer : List Char
  text_segments_sent : Nat
  sent_segments : List (List Char)
deriving Repr, DecidableEq

def initState : TTSLoopState := ⟨[], [], 0, []⟩

/-- One iteration of `for chunk in generate_chat_response_stream(...)`:
append the delta to `assistant_response` and `text_buffer`; set
`should_synthesize` when the delta contains a sentence-ending mark, or else
when the stripped buffer has reached 50 characters; if so and the stripped
buffer is non-empty, send the stripped buffer to the engine and clear it. -/
def ttsStep (st : TTSLoopState) (chunk : List Char) : TTSLoopState :=
  let st1 : TTSLoopState :=
    { st with
        assistant_response := st.assistant_response ++ chunk
        text_buffer := st.text_buffer ++ chunk }
  let should_synthesize : Bool :=
    if sentence_endings.any (fun e => chunk.contains e) then true
    else if 50 ≤ (pyStrip st1.text_buffer).length then true
    else false
  if should_synthesize = true ∧ pyStrip st1.text_buffer ≠ [] then
    { st1 with
        text_segments_sent := st1.text_segments_sent + 1
        sent_segments := st1.sent_segments ++ [pyStrip st1.text_buffer]
        text_buffer := [] }
  else st1

/-- After the generator is exhausted: `if text_buffer.strip():` send the
stripped remainder (the source does not clear the buffer afterwards). -/
def ttsFinish (st : TTSLoopState) : TTSLoopState :=
  if pyStrip st.text_buffer ≠ [] then
    { st with
        text_segments_sent := st.text_segments_sent + 1
        sent_segments := st.sent_segments ++ [pyStrip st.text_buffer] }
  else st

/-- The whole delta loop followed by the final flush. -/
def runTTS (deltas : List (List Char)) : TTSLoopState :=
  ttsFinish (deltas.foldl ttsStep initState)

/-- C7 counterexample: the delta stream consisting of the single delta "\n".
The accumulated segment "\n" contains a mark from the fixed punctuation set,
so the claim requires it to be flushed (and requires the non-empty remainder
to be flushed after exhaustion); but `text_buffer.strip()` is empty, so the
code sends nothing — no segment ever reaches the engine, and the buffer still
holds "\n" when the loop ends. -/
theorem tts_newline_counterexample :
    '\n' ∈ sentence_endings ∧
    ([['\n']].foldl ttsStep initState).text_buffer = ['\n'] ∧
    ['\n'] ≠ ([] : List Char) ∧
    (runTTS [['\n']]).sent_segments = [] ∧
    (runTTS [['\n']]).text_segments_sent = 0 := by
  refine ⟨by decide, by decide, by decide, ?_, ?_⟩ <;> decide

/-- C7 (amended): a flush (send to the engine, then clear the buffer) happens
on a delta exactly when [the delta contains a sentence-ending mark, or the
whitespace-stripped accumulated segment has reached 50 characters] AND the
stripped segment is non-empty; what is sent is the stripped segment.  After
the delta stream is exhausted the remainder is flushed iff its stripped form
is non-empty (not unconditionally).  "Hello world. " still flushes
immediately, and 60 punctuation-free characters flush once the stripped
length crosses 50. -/
theorem tts_flush_amended :
    (∀ (st : TTSLoopState) (chunk : List Char),
      (ttsStep st chunk).text_segments_sent = st.text_segments_sent + 1
        ↔ (sentence_endings.any (fun e => chunk.contains e) = true
            ∨ 50 ≤ (pyStrip (st.text_buffer ++ chunk)).length)
          ∧ pyStrip (st.text_buffer ++ chunk) ≠ []) ∧
    (∀ (st : TTSLoopState) (chunk : List Char),
      (ttsStep st chunk).text_segments_sent = st.text_segments_sent + 1 →
        (ttsStep st chunk).sent_segments
            = st.sent_segments ++ [pyStrip (st.text_buffer ++ chunk)]
          ∧ (ttsStep st chunk).text_buffer = []) ∧
    (∀ (st : TTSLoopState) (chunk : List Char),
      (ttsStep st chunk).text_segments_sent = st.text_segments_sent →
        (ttsStep st chunk).sent_segments = st.sent_segments
          ∧ (ttsStep st chunk).text_buffer = st.text_buffer ++ chunk) ∧
    (∀ st : TTSLoopState,
      (ttsFinish st).sent_segments
        = if pyStrip st.text_buffer ≠ []
          then st.sent_segments ++ [pyStrip st.text_buffer]
          else st.sent_segments) ∧
    (runTTS ["Hello world. ".toList]).sent_segments = ["Hello world.".toList] ∧
    (runTTS [List.replicate 30 'a', List.replicate 30 'a']).sent_segments
        = [List.replicate 60 'a'] ∧
    (runTTS [List.replicate 30 'a']).sent_segments = [List.replicate 30 'a'] := by
  refine ⟨?_, ?_, ?_, ?_, by decide, by decide, by decide⟩
  · intro st chunk
    unfold ttsStep
    by_cases hc : (if sentence_endings.any (fun e => chunk.contains e) then true
        else if 50 ≤ (pyStrip (st.text_buffer ++ chunk)).length then true
        else false) = true ∧ pyStrip (st.text_buffer ++ chunk) ≠ []
    · rw [if_pos hc]
      constructor
      · intro _
        rcases hc with ⟨hc1, hc2⟩
        refine ⟨?_, hc2⟩
        by_cases hm : sentence_endings.any (fun e => chunk.contains e) = true
        · exact Or.inl hm
        · right
          rw [if_neg hm] at hc1
          by_cases hl : 50 ≤ (pyStrip (st.text_buffer ++ chunk)).length
          · exact hl
          · rw [if_neg hl] at hc1
            exact absurd hc1 (by decide)
      · intro _
        rfl
    · rw [if_neg hc]
      simp only
      constructor
      · intro h
        omega
      · intro h
        exfalso
        apply hc
        refine ⟨?_, h.2⟩
        rcases h.1 with hm | hl
        · rw [if_pos hm]
        · by_cases hm : sentence_endings.any (fun e => chunk.contains e) = true
          · rw [if_pos hm]
          · rw [if_neg hm, if_pos hl]
  · intro st chunk
    unfold ttsStep
    by_cases hc : (if sentence_endings.any (fun e => chunk.contains e) then true
        else if 50 ≤ (pyStrip (st.text_buffer ++ chunk)).length then true
        else false) = true ∧ pyStrip (st.text_buffer ++ chunk) ≠ []
    · rw [if_pos hc]
      intro _
      exact ⟨rfl, rfl⟩
    · rw [if_neg hc]
      intro h
      simp only at h
      omega
  · intro st chunk
    unfold ttsStep
    by_cases hc : (if sentence_endings.any (fun e => chunk.contains e) then true
        else if 50 ≤ (pyStrip (st.text_buffer ++ chunk)).length then true
        else false) = true ∧ pyStrip (st.text_buffer ++ chunk) ≠ []
    · rw [if_pos hc]
      intro h
      simp only at h
      omega
    · rw [if_neg hc]
      intro _
      exact ⟨rfl, rfl⟩
  · intro st
    unfold ttsFinish
    by_cases h : pyStrip st.text_buffer ≠ []
    · rw [if_pos h, if_pos h]
    · rw [if_neg h, if_neg h]

/-- C7 witness: the conditional parts of the amended statement at concrete
inputs — the delta "Hi." triggers a flush of "Hi." from the initial state,
while the delta "Hi" leaves the buffer accumulating. -/
theorem tts_flush_amended_witness :
    ((ttsStep initState "Hi.".toList).sent_segments
        = initState.sent_segments ++ [pyStrip (initState.text_buffer ++ "Hi.".toList)]
      ∧ (ttsStep initState "Hi.".toList).text_buffer = []) ∧
    ((ttsStep initState "Hi".toList).sent_segments = initState.sent_segments
      ∧ (ttsStep initState "Hi".toList).text_buffer
          = initState.text_buffer ++ "Hi".toList) :=
  ⟨tts_flush_amended.2.1 initState "Hi.".toList (by decide),
    tts_flush_amended.2.2.1 initState "Hi".toList (by decide)⟩

end TTSLoop

namespace AudioWS

/-- Association-list lookup with `Int` keys: the model of `dict[seq]` /
`seq in dict` for the session's out-of-order packet buffer.  Python dicts
preserve insertion order, which the list models. -/
def lookupKey (k : Int) : List (Int × List Nat) → Option (List Nat)
  | [] => none
  | (k0, v) :: rest => if k0 = k then some v else lookupKey k rest

/-- `dict.pop(k)`: remove the (unique) entry with key `k`. -/
def removeKey (k : Int) : List (Int × List Nat) → List (Int × List Nat)
  | [] => []
  | (k0, v) :: rest => if k0 = k then rest else (k0, v) :: removeKey k rest

theorem removeKey_length_of_lookup (k : Int) :
    ∀ l : List (Int × List Nat), (lookupKey k l).isSome →
      (removeKey k l).length + 1 = l.length := by
  intro l
  induction l with
  | nil => intro h; simp [lookupKey] at h
  | cons hd tl ih =>
    intro h
    obtain ⟨k0, v⟩ := hd
    by_cases hk : k0 = k
    · simp [removeKey, hk]
    · simp only [lookupKey, hk, if_neg, not_false_iff] at h
      simp [removeKey, hk, ih h]

theorem lookupKey_append (k : Int) :
    ∀ l l' : List (Int × List Nat),
      lookupKey k (l ++ l')
        = match lookupKey k l with
          | some v => some v
          | none => lookupKey k l' := by
  intro l l'
  induction l with
  | nil => simp [lookupKey]
  | cons hd tl ih =>
    obtain ⟨k0, v⟩ := hd
    by_cases hk : k0 = k
    · simp [lookupKey, hk]
    · simp [lookupKey, hk, ih]

theorem lookupKey_removeKey_ne (k j : Int) (hne : j ≠ k) :
    ∀ l : List (Int × List Nat),
      lookupKey j (removeKey k l) = lookupKey j l := by
  intro l
  induction l with
  | nil => simp [removeKey]
  | cons hd tl ih =>
    obtain ⟨k0, v⟩ := hd
    simp only [removeKey, lookupKey]
    by_cases hk : k0 = k
    · have hk0j : ¬ k0 = j := by
        rw [hk]
        exact Ne.symm hne
      rw [if_pos hk, if_neg hk0j]
    · rw [if_neg hk]
      simp only [lookupKey]
      by_cases hj : k0 = j
      · rw [if_pos hj, if_pos hj]
      · rw [if_neg hj, if_neg hj, ih]

theorem lookupKey_eq_none_iff (k : Int) :
    ∀ l : List (Int × List Nat),
      lookupKey k l = none ↔ k ∉ l.map Prod.fst := by
  intro l
  induction l with
  | nil => simp [lookupKey]
  | cons hd tl ih =>
    obtain ⟨k0, v⟩ := hd
    by_cases hk : k0 = k
    · simp [lookupKey, hk]
    · simp [lookupKey, hk, ih, Ne.symm hk]

theorem removeKey_sublist (k : Int) :
    ∀ l : List (Int × List Nat), (removeKey k l).Sublist l := by
  intro l
  induction l with
  | nil => simp [removeKey]
  | cons hd tl ih =>
    obtain ⟨k0, v⟩ := hd
    by_cases hk : k0 = k
    · simp only [removeKey, hk, if_pos]
      exact List.sublist_cons_self (k, v) tl
    · simp only [removeKey, hk, if_neg, not_false_iff]
      exact List.Sublist.cons₂ (k0, v) ih

theorem lookupKey_removeKey_self (k : Int) :
    ∀ l : List (Int × List Nat), (l.map Prod.fst).Nodup →
      lookupKey k (removeKey k l) = none := by
  intro l
  induction l with
  | nil => intro _; simp [removeKey, lookupKey]
  | cons hd tl ih =>
    intro hnd
    obtain ⟨k0, v⟩ := hd
    simp only [List.map_cons, List.nodup_cons] at hnd
    by_cases hk : k0 = k
    · subst hk
      simp only [removeKey, if_pos]
      rw [lookupKey_eq_none_iff]
      exact hnd.1
    · simp only [removeKey, hk, if_neg, not_false_iff, lookupKey, hk]
      exact ih hnd.2

/-- `[lo, lo + 1, ..., lo + n - 1]` over `Int`. -/
def intRange (lo : Int) : Nat → List Int
  | 0 => []
  | n + 1 => lo :: intRange (lo + 1) n

/-- State of one audio transfer session (audio_websocket.py).  `packets`
holds only the out-of-order buffered packets (decoded payloads), `fileData`
is the list of byte strings passed to successive `write` calls on the sink
file, `fileOpen` mirrors whether `file_handle` is a live handle. -/
structure AudioSession where
  packets : List (Int × List Nat)
  total_packets : Int
  received_count : Int
  expected_seq : Int
  fileOpen : Bool
  fileData : List (List Nat)
deriving Repr, DecidableEq

/-- The session as initialized by `handle_audio_connect`. -/
def initAudioSession : AudioSession :=
  { packets := []
    total_packets := 0
    received_count := 0
    expected_seq := 1
    fileOpen := false
    fileData := [] }

/-- The error responses `handle_audio_message` can emit before accepting a
packet (the JSON-parse and field/type validations are prior to the typed
packet and are not distinguished here). -/
inductive AudioReject where
  | seqOutOfRange
  | packetTooLarge
  | inconsistentTotal
  | noFileHandle
  | duplicateOrStale
deriving Repr, DecidableEq

/-- What follows the `packet_ack` of an accepted packet: nothing, an
"incomplete, missing packets" error listing the still-buffered sequence
numbers, or completion (the background processing starts). -/
inductive AudioCompletion where
  | notDone
  | doneMissing (missing : List Int)
  | doneOk
deriving Repr, DecidableEq

inductive AudioOutcome where
  | reject (r : AudioReject)
  | ack (received total : Int) (c : AudioCompletion)
deriving Repr, DecidableEq

/-- One step of the `while session['expected_seq'] in session['packets']`
loop, with explicit fuel: pop the buffered packet with the expected sequence
number, write its payload, advance `expected_seq` and `received_count`;
repeat.  Each iteration removes one buffered packet, so the loop runs at most
`packets.length` times; `drainAudio` supplies exactly that fuel, which makes
the model a faithful, structurally recursive rendering of the loop. -/
def drainLoop : Nat → AudioSession → AudioSession
  | 0, s => s
  | fuel + 1, s =>
    match lookupKey s.expected_seq s.packets with
    | some v =>
      drainLoop fuel { s with
        packets := removeKey s.expected_seq s.packets
        fileData := s.fileData ++ [v]
        expected_seq := s.expected_seq + 1
        received_count := s.received_count + 1 }
    | none => s

/-- The `while session['expected_seq'] in session['packets']` loop. -/
def drainAudio (s : AudioSession) : AudioSession :=
  drainLoop s.packets.length s

/-- Completion check at the end of `handle_audio_message` (after the
`packet_ack` emit): when `received_count == total_packets` close the sink;
then, if out-of-order buffered packets remain, report them as missing
instead of signaling success. -/
def finishAudio (s : AudioSession) : AudioSession × AudioOutcome :=
  if s.received_count = s.total_packets then
    if s.packets.isEmpty then
      ({ s with fileOpen := false },
        .ack s.received_count s.total_packets .doneOk)
    else
      ({ s with fileOpen := false },
        .ack s.received_count s.total_packets
          (.doneMissing (s.packets.map Prod.fst)))
  else
    (s, .ack s.received_count s.total_packets .notDone)

/-- The part of `handle_audio_message` after the total/first-packet branch:
file-handle check, duplicate/stale check, then either the in-order write
(followed by the drain loop) or out-of-order buffering, and finally the
ack/completion. -/
def acceptAudioPacket (s : AudioSession) (seq : Int) (payload : List Nat) :
    AudioSession × AudioOutcome :=
  if s.fileOpen = false then (s, .reject .noFileHandle)
  else if (lookupKey seq s.packets).isSome ∨ seq < s.expected_seq then
    (s, .reject .duplicateOrStale)
  else if seq = s.expected_seq then
    finishAudio (drainAudio { s with
      fileData := s.fileData ++ [payload]
      expected_seq := s.expected_seq + 1
      received_count := s.received_count + 1 })
  else
    finishAudio { s with packets := s.packets ++ [(seq, payload)] }

/-- `handle_audio_message` on a type-correct JSON packet
`{seq, total, data}`: validate the sequence range, the encoded size
(`len(audio_data) > 11000`) — base64 validity always holds in the
decoded-bytes model — then the first-packet / inconsistent-total branch
(the first packet fixes `total_packets` and opens the sink), then the
accept path. -/
def handle_audio_message (s : AudioSession) (seq total : Int)
    (payload : List Nat) : AudioSession × AudioOutcome :=
  if seq < 1 ∨ total < seq then (s, .reject .seqOutOfRange)
  else if 11000 < b64Length payload.length then (s, .reject .packetTooLarge)
  else if s.total_packets = 0 then
    acceptAudioPacket { s with total_packets := total, fileOpen := true }
      seq payload
  else if s.total_packets ≠ total then (s, .reject .inconsistentTotal)
  else acceptAudioPacket s seq payload

/-- Deliver a list of `(seq, total, payload)` packets to the handler. -/
def runAudio (s : AudioSession) : List (Int × Int × List Nat) → AudioSession
  | [] => s
  | (seq, total, payload) :: rest =>
      runAudio (handle_audio_message s seq total payload).1 rest

theorem drainLoop_congr :
    ∀ (fuel fuel' : Nat) (s : AudioSession),
      s.packets.length ≤ fuel → s.packets.length ≤ fuel' →
      drainLoop fuel s = drainLoop fuel' s := by
  intro fuel
  induction fuel with
  | zero =>
    intro fuel' s h _
    have hnil : s.packets = [] := List.length_eq_zero.mp (Nat.le_zero.mp h)
    cases fuel' with
    | zero => rfl
    | succ f => simp [drainLoop, hnil, lookupKey]
  | succ f ih =>
    intro fuel' s h h'
    cases fuel' with
    | zero =>
      have hnil : s.packets = [] := List.length_eq_zero.mp (Nat.le_zero.mp h')
      simp [drainLoop, hnil, lookupKey]
    | succ f' =>
      simp only [drainLoop]
      cases hl : lookupKey s.expected_seq s.packets with
      | none => rfl
      | some v =>
        have hlen := removeKey_length_of_lookup s.expected_seq s.packets
          (by rw [hl]; rfl)
        apply ih
        · show (removeKey s.expected_seq s.packets).length ≤ f
          omega
        · show (removeKey s.expected_seq s.packets).length ≤ f'
          omega

theorem drainAudio_none {s : AudioSession}
    (h : lookupKey s.expected_seq s.packets = none) : drainAudio s = s := by
  unfold drainAudio
  cases hl : s.packets.length with
  | zero => rfl
  | succ n => simp [drainLoop, h]

theorem drainAudio_some {s : AudioSession} {v : List Nat}
    (h : lookupKey s.expected_seq s.packets = some v) :
    drainAudio s = drainAudio { s with
      packets := removeKey s.expected_seq s.packets
      fileData := s.fileData ++ [v]
      expected_seq := s.expected_seq + 1
      received_count := s.received_count + 1 } := by
  have hpos : 0 < s.packets.length := by
    cases hp : s.packets with
    | nil =>
      rw [hp] at h
      simp [lookupKey] at h
    | cons a l => simp [hp]
  have hlen := removeKey_length_of_lookup s.expected_seq s.packets
    (by rw [h]; rfl)
  unfold drainAudio
  obtain ⟨n, hn⟩ : ∃ n, s.packets.length = n + 1 :=
    ⟨s.packets.length - 1, by omega⟩
  rw [hn]
  simp only [drainLoop, h]
  apply drainLoop_congr
  · show (removeKey s.expected_seq s.packets).length ≤ n
    omega
  · exact le_rfl

/-- Quantities `drainAudio` never changes: the fixed total, the file-open
flag, and the differences between the three counters it advances together. -/
theorem drainAudio_basic :
    ∀ (n : Nat) (s : AudioSession), s.packets.length ≤ n →
      (drainAudio s).total_packets = s.total_packets ∧
      (drainAudio s).fileOpen = s.fileOpen ∧
      (drainAudio s).expected_seq - (drainAudio s).received_count
          = s.expected_seq - s.received_count ∧
      (drainAudio s).received_count - ((drainAudio s).fileData.length : Int)
          = s.received_count - (s.fileData.length : Int) := by
  intro n
  induction n with
  | zero =>
    intro s hs
    have hnil : s.packets = [] := List.length_eq_zero.mp (Nat.le_zero.mp hs)
    rw [drainAudio_none (by rw [hnil]; rfl)]
    exact ⟨rfl, rfl, rfl, rfl⟩
  | succ n ih =>
    intro s hs
    cases hl : lookupKey s.expected_seq s.packets with
    | none =>
      rw [drainAudio_none hl]
      exact ⟨rfl, rfl, rfl, rfl⟩
    | some v =>
      rw [drainAudio_some hl]
      have hlen := removeKey_length_of_lookup s.expected_seq s.packets
        (by rw [hl]; rfl)
      have hrec := ih { s with
          packets := removeKey s.expected_seq s.packets
          fileData := s.fileData ++ [v]
          expected_seq := s.expected_seq + 1
          received_count := s.received_count + 1 }
        (by show (removeKey s.expected_seq s.packets).length ≤ n; omega)
      refine ⟨hrec.1, hrec.2.1, ?_, ?_⟩
      · rw [hrec.2.2.1]
        show s.expected_seq + 1 - (s.received_count + 1)
            = s.expected_seq - s.received_count
        omega
      · have hlen2 : ((({ s with
            packets := removeKey s.expected_seq s.packets
            fileData := s.fileData ++ [v]
            expected_seq := s.expected_seq + 1
            received_count := s.received_count + 1 } : AudioSession).fileData.length : Int))
            = (s.fileData.length : Int) + 1 := by
          show ((s.fileData ++ [v]).length : Int) = (s.fileData.length : Int) + 1
          rw [List.length_append]
          push_cast
          simp
        rw [hrec.2.2.2, hlen2]
        show s.received_count + 1 - ((s.fileData.length : Int) + 1)
            = s.received_count - (s.fileData.length : Int)
        omega

/-- `finishAudio` only closes the file handle: every other field survives. -/
theorem finishAudio_state (s : AudioSession) :
    (finishAudio s).1.expected_seq = s.expected_seq ∧
    (finishAudio s).1.received_count = s.received_count ∧
    (finishAudio s).1.fileData = s.fileData ∧
    (finishAudio s).1.packets = s.packets ∧
    (finishAudio s).1.total_packets = s.total_packets := by
  unfold finishAudio
  by_cases h1 : s.received_count = s.total_packets
  · rw [if_pos h1]
    by_cases h2 : s.packets.isEmpty
    · rw [if_pos h2]
      exact ⟨rfl, rfl, rfl, rfl, rfl⟩
    · rw [if_neg h2]
      exact ⟨rfl, rfl, rfl, rfl, rfl⟩
  · rw [if_neg h1]
    exact ⟨rfl, rfl, rfl, rfl, rfl⟩

/-- The completion check of `finishAudio`: an acknowledged packet whose
received count equals the total closes the sink and yields `doneOk` exactly
when no buffered packets remain, `doneMissing` (listing broadly the buffered
keys) otherwise. -/
theorem finishAudio_complete (s : AudioSession) (r t : Int)
    (c : AudioCompletion) (h : (finishAudio s).2 = .ack r t c) (hrt : r = t) :
    (finishAudio s).1.fileOpen = false ∧
    ((finishAudio s).1.packets = [] → c = .doneOk) ∧
    ((finishAudio s).1.packets ≠ [] →
        c = .doneMissing ((finishAudio s).1.packets.map Prod.fst)) := by
  unfold finishAudio at h ⊢
  by_cases hc : s.received_count = s.total_packets
  · rw [if_pos hc] at h ⊢
    by_cases hp : s.packets.isEmpty
    · rw [if_pos hp] at h ⊢
      injection h with h1 h2 h3
      exact ⟨rfl, fun _ => h3.symm, fun hne => absurd
        (List.isEmpty_iff.mp hp) hne⟩
    · rw [if_neg hp] at h ⊢
      injection h with h1 h2 h3
      refine ⟨rfl, fun hnil => ?_, fun _ => h3.symm⟩
      exact absurd (List.isEmpty_iff.mpr hnil) hp
  · rw [if_neg hc] at h ⊢
    injection h with h1 h2 h3
    exact absurd (h1 ▸ h2 ▸ hrt) hc

/-- `acceptAudioPacket` (and hence the whole accept path) never touches
`total_packets`. -/
theorem acceptAudioPacket_total (s : AudioSession) (seq : Int)
    (payload : List Nat) :
    (acceptAudioPacket s seq payload).1.total_packets = s.total_packets := by
  unfold acceptAudioPacket
  by_cases h1 : s.fileOpen = false
  · rw [if_pos h1]
  · rw [if_neg h1]
    by_cases h2 : (lookupKey seq s.packets).isSome ∨ seq < s.expected_seq
    · rw [if_pos h2]
    · rw [if_neg h2]
      by_cases h3 : seq = s.expected_seq
      · rw [if_pos h3]
        rw [(finishAudio_state _).2.2.2.2]
        exact (drainAudio_basic _ _ le_rfl).1
      · rw [if_neg h3]
        rw [(finishAudio_state _).2.2.2.2]

/-- C4: a packet whose `seq` is already a key of `packets` or is below
`expected_seq` is rejected with an error, and `expected_seq`,
`received_count`, `packets` and the sink (no write, no close) are left
exactly as they were.  (In the degenerate `total_packets = 0` state the
source still fixes the total and opens a fresh, empty sink before the
duplicate check; the four quantities of the claim are untouched in every
path, and an open sink is never closed.) -/
theorem duplicate_or_stale_rejected (s : AudioSession) (seq total : Int)
    (payload : List Nat)
    (h : (lookupKey seq s.packets).isSome ∨ seq < s.expected_seq) :
    (∃ r, (handle_audio_message s seq total payload).2 = .reject r) ∧
    (handle_audio_message s seq total payload).1.expected_seq
        = s.expected_seq ∧
    (handle_audio_message s seq total payload).1.received_count
        = s.received_count ∧
    (handle_audio_message s seq total payload).1.packets = s.packets ∧
    (handle_audio_message s seq total payload).1.fileData = s.fileData ∧
    (s.fileOpen = true →
      (handle_audio_message s seq total payload).1.fileOpen = true) := by
  unfold handle_audio_message
  by_cases h1 : seq < 1 ∨ total < seq
  · rw [if_pos h1]
    exact ⟨⟨.seqOutOfRange, rfl⟩, rfl, rfl, rfl, rfl, fun hh => hh⟩
  rw [if_neg h1]
  by_cases h2 : 11000 < b64Length payload.length
  · rw [if_pos h2]
    exact ⟨⟨.packetTooLarge, rfl⟩, rfl, rfl, rfl, rfl, fun hh => hh⟩
  rw [if_neg h2]
  by_cases h3 : s.total_packets = 0
  · rw [if_pos h3]
    unfold acceptAudioPacket
    have hopen : ¬ ((⟨s.packets, total, s.received_count, s.expected_seq, true, s.fileData⟩ : AudioSession).fileOpen = false) := by simp
    have h' : (lookupKey seq (⟨s.packets, total, s.received_count, s.expected_seq, true, s.fileData⟩ : AudioSession).packets).isSome ∨ seq < (⟨s.packets, total, s.received_count, s.expected_seq, true, s.fileData⟩ : AudioSession).expected_seq := h
    rw [if_neg hopen, if_pos h']
    exact ⟨⟨.duplicateOrStale, rfl⟩, rfl, rfl, rfl, rfl, fun _ => rfl⟩
  rw [if_neg h3]
  by_cases h4 : s.total_packets ≠ total
  · rw [if_pos h4]
    exact ⟨⟨.inconsistentTotal, rfl⟩, rfl, rfl, rfl, rfl, fun hh => hh⟩
  rw [if_neg h4]
  unfold acceptAudioPacket
  by_cases h5 : s.fileOpen = false
  · rw [if_pos h5]
    exact ⟨⟨.noFileHandle, rfl⟩, rfl, rfl, rfl, rfl, fun hh => hh⟩
  rw [if_neg h5, if_pos h]
  exact ⟨⟨.duplicateOrStale, rfl⟩, rfl, rfl, rfl, rfl, fun hh => hh⟩

/-- C4 witness: resubmitting the already-buffered `seq = 2` is rejected and
changes none of the protected quantities. -/
theorem duplicate_or_stale_rejected_witness :
    (∃ r, (handle_audio_message ⟨[(2, [7])], 3, 0, 1, true, []⟩ 2 3 [9]).2
        = .reject r) ∧
    (handle_audio_message ⟨[(2, [7])], 3, 0, 1, true, []⟩ 2 3 [9]).1.expected_seq
        = (⟨[(2, [7])], 3, 0, 1, true, []⟩ : AudioSession).expected_seq ∧
    (handle_audio_message ⟨[(2, [7])], 3, 0, 1, true, []⟩ 2 3 [9]).1.received_count
        = (⟨[(2, [7])], 3, 0, 1, true, []⟩ : AudioSession).received_count ∧
    (handle_audio_message ⟨[(2, [7])], 3, 0, 1, true, []⟩ 2 3 [9]).1.packets
        = (⟨[(2, [7])], 3, 0, 1, true, []⟩ : AudioSession).packets ∧
    (handle_audio_message ⟨[(2, [7])], 3, 0, 1, true, []⟩ 2 3 [9]).1.fileData
        = (⟨[(2, [7])], 3, 0, 1, true, []⟩ : AudioSession).fileData ∧
    (handle_audio_message ⟨[(2, [7])], 3, 0, 1, true, []⟩ 2 3 [9]).1.fileOpen
        = true := by
  have h := duplicate_or_stale_rejected ⟨[(2, [7])], 3, 0, 1, true, []⟩ 2 3 [9]
    (by decide)
  exact ⟨h.1, h.2.1, h.2.2.1, h.2.2.2.1, h.2.2.2.2.1, h.2.2.2.2.2 rfl⟩

/-- C5: whenever the handler acknowledges a packet with `received = total`,
the sink is closed; if buffered packets remain, the outcome is the error
listing exactly the sequence numbers still in `packets` (in insertion
order), otherwise completion is signaled. -/
theorem completion_closes_and_reports (s : AudioSession) (seq total : Int)
    (payload : List Nat) (r t : Int) (c : AudioCompletion)
    (hack : (handle_audio_message s seq total payload).2 = .ack r t c)
    (hrt : r = t) :
    (handle_audio_message s seq total payload).1.fileOpen = false ∧
    ((handle_audio_message s seq total payload).1.packets = [] →
        c = .doneOk) ∧
    ((handle_audio_message s seq total payload).1.packets ≠ [] →
        c = .doneMissing
          ((handle_audio_message s seq total payload).1.packets.map
            Prod.fst)) := by
  unfold handle_audio_message at hack ⊢
  by_cases h1 : seq < 1 ∨ total < seq
  · rw [if_pos h1] at hack
    simp at hack
  rw [if_neg h1] at hack ⊢
  by_cases h2 : 11000 < b64Length payload.length
  · rw [if_pos h2] at hack
    simp at hack
  rw [if_neg h2] at hack ⊢
  by_cases h3 : s.total_packets = 0
  · rw [if_pos h3] at hack ⊢
    unfold acceptAudioPacket at hack ⊢
    have hopen : ¬ ((⟨s.packets, total, s.received_count, s.expected_seq, true, s.fileData⟩ : AudioSession).fileOpen = false) := by simp
    rw [if_neg hopen] at hack ⊢
    by_cases hd : (lookupKey seq (⟨s.packets, total, s.received_count, s.expected_seq, true, s.fileData⟩ : AudioSession).packets).isSome ∨ seq < (⟨s.packets, total, s.received_count, s.expected_seq, true, s.fileData⟩ : AudioSession).expected_seq
    · rw [if_pos hd] at hack
      simp at hack
    rw [if_neg hd] at hack ⊢
    by_cases he : seq = (⟨s.packets, total, s.received_count, s.expected_seq, true, s.fileData⟩ : AudioSession).expected_seq
    · rw [if_pos he] at hack ⊢
      exact finishAudio_complete _ r t c hack hrt
    · rw [if_neg he] at hack ⊢
      exact finishAudio_complete _ r t c hack hrt
  rw [if_neg h3] at hack ⊢
  by_cases h4 : s.total_packets ≠ total
  · rw [if_pos h4] at hack
    simp at hack
  rw [if_neg h4] at hack ⊢
  unfold acceptAudioPacket at hack ⊢
  by_cases h5 : s.fileOpen = false
  · rw [if_pos h5] at hack
    simp at hack
  rw [if_neg h5] at hack ⊢
  by_cases hd : (lookupKey seq s.packets).isSome ∨ seq < s.expected_seq
  · rw [if_pos hd] at hack
    simp at hack
  rw [if_neg hd] at hack ⊢
  by_cases he : seq = s.expected_seq
  · rw [if_pos he] at hack ⊢
    exact finishAudio_complete _ r t c hack hrt
  · rw [if_neg he] at hack ⊢
    exact finishAudio_complete _ r t c hack hrt

/-- C5 witness: a session expecting 1 of 1 with a stray buffered packet 3;
accepting packet 1 makes `received = total = 1`, the sink closes, and the
outcome lists exactly the leftover sequence number 3. -/
theorem completion_closes_and_reports_witness :
    (handle_audio_message ⟨[(3, [2])], 1, 0, 1, true, []⟩ 1 1 [5]).1.fileOpen
        = false ∧
    AudioCompletion.doneMissing [3]
        = .doneMissing
          ((handle_audio_message ⟨[(3, [2])], 1, 0, 1, true, []⟩ 1 1
            [5]).1.packets.map Prod.fst) :=
  ⟨(completion_closes_and_reports ⟨[(3, [2])], 1, 0, 1, true, []⟩ 1 1 [5]
      1 1 (.doneMissing [3]) (by decide) rfl).1,
    (completion_closes_and_reports ⟨[(3, [2])], 1, 0, 1, true, []⟩ 1 1 [5]
      1 1 (.doneMissing [3]) (by decide) rfl).2.2 (by decide)⟩

/-- C6 counterexample: a session whose `total_packets` was fixed at 3 by a
buffered first packet receives `{seq := 0, total := 5}` — the total differs,
but the handler rejects with the seq-range validation error, not the
inconsistent-total error (validation precedes the total check). -/
theorem inconsistent_total_error_kind_counterexample :
    (handle_audio_message initAudioSession 2 3 [1]).1
        = ⟨[(2, [1])], 3, 0, 1, true, []⟩ ∧
    handle_audio_message ⟨[(2, [1])], 3, 0, 1, true, []⟩ 0 5 []
        = (⟨[(2, [1])], 3, 0, 1, true, []⟩, .reject .seqOutOfRange) ∧
    (5 : Int) ≠ (3 : Int) ∧
    AudioReject.seqOutOfRange ≠ AudioReject.inconsistentTotal := by
  decide

/-- C6 (amended): the first packet of a session that passes validation fixes
`total_packets`; once non-zero it is never reassigned; any packet whose
total differs from it is rejected with the session unchanged — with the
inconsistent-total error whenever the packet passes the preceding seq-range
and size validations (otherwise with that validation error). -/
theorem total_fixed_once_amended :
    (∀ (s : AudioSession) (seq total : Int) (payload : List Nat)
        (r t : Int) (c : AudioCompletion),
      s.total_packets = 0 →
      (handle_audio_message s seq total payload).2 = .ack r t c →
      (handle_audio_message s seq total payload).1.total_packets = total) ∧
    (∀ (s : AudioSession) (seq total : Int) (payload : List Nat),
      s.total_packets ≠ 0 →
      (handle_audio_message s seq total payload).1.total_packets
          = s.total_packets) ∧
    (∀ (s : AudioSession) (seq total : Int) (payload : List Nat),
      s.total_packets ≠ 0 → total ≠ s.total_packets →
      ∃ r, handle_audio_message s seq total payload = (s, .reject r)) ∧
    (∀ (s : AudioSession) (seq total : Int) (payload : List Nat),
      s.total_packets ≠ 0 → total ≠ s.total_packets →
      ¬ (seq < 1 ∨ total < seq) → ¬ (11000 < b64Length payload.length) →
      handle_audio_message s seq total payload
          = (s, .reject .inconsistentTotal)) := by
  refine ⟨?_, ?_, ?_, ?_⟩
  · intro s seq total payload r t c h0 hack
    unfold handle_audio_message at hack ⊢
    by_cases h1 : seq < 1 ∨ total < seq
    · rw [if_pos h1] at hack
      simp at hack
    rw [if_neg h1] at hack ⊢
    by_cases h2 : 11000 < b64Length payload.length
    · rw [if_pos h2] at hack
      simp at hack
    rw [if_neg h2] at hack ⊢
    rw [if_pos h0] at hack ⊢
    rw [acceptAudioPacket_total]
  · intro s seq total payload h0
    unfold handle_audio_message
    by_cases h1 : seq < 1 ∨ total < seq
    · rw [if_pos h1]
    rw [if_neg h1]
    by_cases h2 : 11000 < b64Length payload.length
    · rw [if_pos h2]
    rw [if_neg h2, if_neg h0]
    by_cases h4 : s.total_packets ≠ total
    · rw [if_pos h4]
    rw [if_neg h4]
    exact acceptAudioPacket_total s seq payload
  · intro s seq total payload h0 htot
    unfold handle_audio_message
    by_cases h1 : seq < 1 ∨ total < seq
    · rw [if_pos h1]
      exact ⟨.seqOutOfRange, rfl⟩
    rw [if_neg h1]
    by_cases h2 : 11000 < b64Length payload.length
    · rw [if_pos h2]
      exact ⟨.packetTooLarge, rfl⟩
    rw [if_neg h2, if_neg h0, if_pos (Ne.symm htot)]
    exact ⟨.inconsistentTotal, rfl⟩
  · intro s seq total payload h0 htot h1 h2
    unfold handle_audio_message
    rw [if_neg h1, if_neg h2, if_neg h0, if_pos (Ne.symm htot)]

/-- C6 witness: the buffered first packet `{seq := 2, total := 3}` fixes the
total at 3; it stays 3 across a later invalid packet; and a validated packet
with total 5 is rejected with the inconsistent-total error, session
unchanged. -/
theorem total_fixed_once_amended_witness :
    (handle_audio_message initAudioSession 2 3 [1]).1.total_packets = 3 ∧
    (handle_audio_message ⟨[(2, [1])], 3, 0, 1, true, []⟩ 0 5 []).1.total_packets
        = (⟨[(2, [1])], 3, 0, 1, true, []⟩ : AudioSession).total_packets ∧
    handle_audio_message ⟨[(2, [1])], 3, 0, 1, true, []⟩ 1 5 [9]
        = (⟨[(2, [1])], 3, 0, 1, true, []⟩, .reject .inconsistentTotal) :=
  ⟨total_fixed_once_amended.1 initAudioSession 2 3 [1] 0 3 .notDone rfl
      (by decide),
    total_fixed_once_amended.2.1 ⟨[(2, [1])], 3, 0, 1, true, []⟩ 0 5 []
      (by decide),
    total_fixed_once_amended.2.2.2 ⟨[(2, [1])], 3, 0, 1, true, []⟩ 1 5 [9]
      (by decide) (by decide) (by decide) (by decide)⟩

/-- The C10 invariant: the next expected sequence number is one past the
number of accepted packets, which is exactly the number of payloads written
to the sink. -/
def CounterInv (s : AudioSession) : Prop :=
  s.expected_seq = s.received_count + 1 ∧
  s.received_count = (s.fileData.length : Int)

theorem acceptAudioPacket_counters (s : AudioSession) (seq : Int)
    (payload : List Nat) (hinv : CounterInv s) :
    CounterInv (acceptAudioPacket s seq payload).1 := by
  obtain ⟨h1, h2⟩ := hinv
  unfold acceptAudioPacket
  by_cases hf : s.fileOpen = false
  · rw [if_pos hf]
    exact ⟨h1, h2⟩
  rw [if_neg hf]
  by_cases hd : (lookupKey seq s.packets).isSome ∨ seq < s.expected_seq
  · rw [if_pos hd]
    exact ⟨h1, h2⟩
  rw [if_neg hd]
  by_cases he : seq = s.expected_seq
  · rw [if_pos he]
    have hbasic := drainAudio_basic ({ s with
        fileData := s.fileData ++ [payload]
        expected_seq := s.expected_seq + 1
        received_count := s.received_count + 1 }
      : AudioSession).packets.length _ le_rfl
    have hfin := finishAudio_state (drainAudio { s with
        fileData := s.fileData ++ [payload]
        expected_seq := s.expected_seq + 1
        received_count := s.received_count + 1 })
    have hq1 := hbasic.2.2.1
    have hq2 := hbasic.2.2.2
    have hlen : ((({ s with
        fileData := s.fileData ++ [payload]
        expected_seq := s.expected_seq + 1
        received_count := s.received_count + 1 }
      : AudioSession).fileData.length : Int))
        = (s.fileData.length : Int) + 1 := by
      show ((s.fileData ++ [payload]).length : Int)
          = (s.fileData.length : Int) + 1
      rw [List.length_append]
      push_cast
      simp
    rw [hlen] at hq2
    constructor
    · rw [hfin.1, hfin.2.1]
      have he1 : (({ s with
          fileData := s.fileData ++ [payload]
          expected_seq := s.expected_seq + 1
          received_count := s.received_count + 1 }
        : AudioSession).expected_seq) = s.expected_seq + 1 := rfl
      have he2 : (({ s with
          fileData := s.fileData ++ [payload]
          expected_seq := s.expected_seq + 1
          received_count := s.received_count + 1 }
        : AudioSession).received_count) = s.received_count + 1 := rfl
      rw [he1, he2] at hq1
      omega
    · rw [hfin.2.1, hfin.2.2.1]
      have he2 : (({ s with
          fileData := s.fileData ++ [payload]
          expected_seq := s.expected_seq + 1
          received_count := s.received_count + 1 }
        : AudioSession).received_count) = s.received_count + 1 := rfl
      rw [he2] at hq2
      omega
  · rw [if_neg he]
    have hfin := finishAudio_state ({ s with
        packets := s.packets ++ [(seq, payload)] } : AudioSession)
    constructor
    · rw [hfin.1, hfin.2.1]
      exact h1
    · rw [hfin.2.1, hfin.2.2.1]
      exact h2

/-- C10: the invariant `expected_seq = received_count + 1` together with
`received_count = number of payloads written to the sink` holds after
session creation and is preserved by every invocation of the message
handler, accepted or rejected. -/
theorem counters_lockstep :
    CounterInv initAudioSession ∧
    ∀ (s : AudioSession) (seq total : Int) (payload : List Nat),
      CounterInv s → CounterInv (handle_audio_message s seq total payload).1 := by
  constructor
  · exact ⟨rfl, rfl⟩
  intro s seq total payload hinv
  unfold handle_audio_message
  by_cases h1 : seq < 1 ∨ total < seq
  · rw [if_pos h1]
    exact hinv
  rw [if_neg h1]
  by_cases h2 : 11000 < b64Length payload.length
  · rw [if_pos h2]
    exact hinv
  rw [if_neg h2]
  by_cases h3 : s.total_packets = 0
  · rw [if_pos h3]
    exact acceptAudioPacket_counters _ seq payload ⟨hinv.1, hinv.2⟩
  rw [if_neg h3]
  by_cases h4 : s.total_packets ≠ total
  · rw [if_pos h4]
    exact hinv
  rw [if_neg h4]
  exact acceptAudioPacket_counters s seq payload hinv

/-- C10 witness: the invariant holds at the initial session and is carried
through a concrete accepted packet. -/
theorem counters_lockstep_witness :
    CounterInv (handle_audio_message initAudioSession 1 1 [2]).1 :=
  counters_lockstep.2 initAudioSession 1 1 [2] counters_lockstep.1

theorem intRange_length (lo : Int) : ∀ n : Nat, (intRange lo n).length = n := by
  intro n
  induction n generalizing lo with
  | zero => rfl
  | succ k ih => simp [intRange, ih (lo + 1)]

theorem mem_intRange (j lo : Int) :
    ∀ n : Nat, j ∈ intRange lo n ↔ lo ≤ j ∧ j < lo + (n : Int) := by
  intro n
  induction n generalizing lo with
  | zero =>
    simp only [intRange, List.not_mem_nil, false_iff, not_and, not_lt]
    intro _
    omega
  | succ k ih =>
    simp only [intRange, List.mem_cons, ih (lo + 1)]
    constructor
    · rintro (rfl | ⟨h1, h2⟩)
      · constructor <;> omega
      · constructor <;> omega
    · rintro ⟨h1, h2⟩
      by_cases hj : j = lo
      · exact Or.inl hj
      · right
        constructor <;> omega

theorem intRange_nodup (lo : Int) : ∀ n : Nat, (intRange lo n).Nodup := by
  intro n
  induction n generalizing lo with
  | zero => simp [intRange]
  | succ k ih =>
    simp only [intRange, List.nodup_cons]
    refine ⟨?_, ih (lo + 1)⟩
    rw [mem_intRange]
    omega

theorem intRange_succ_right (lo : Int) :
    ∀ n : Nat, intRange lo (n + 1) = intRange lo n ++ [lo + (n : Int)] := by
  intro n
  induction n generalizing lo with
  | zero => simp [intRange]
  | succ k ih =>
    have h1 : intRange lo (k + 1 + 1) = lo :: intRange (lo + 1) (k + 1) := rfl
    have h2 : intRange lo (k + 1) = lo :: intRange (lo + 1) k := rfl
    rw [h1, ih (lo + 1), h2, List.cons_append]
    have h3 : lo + 1 + (k : Int) = lo + ((k : Nat) + 1 : Nat) := by
      push_cast
      ring
    rw [h3]

theorem fileData_snoc (p : Int → List Nat) (e : Int) (he : 1 ≤ e)
    (fd : List (List Nat)) (hfd : fd = (intRange 1 (e - 1).toNat).map p) :
    fd ++ [p e] = (intRange 1 (e + 1 - 1).toNat).map p := by
  subst hfd
  have h1 : (e + 1 - 1).toNat = (e - 1).toNat + 1 := by omega
  have h2 : (1 : Int) + ((e - 1).toNat : Int) = e := by omega
  rw [h1, intRange_succ_right, h2, List.map_append]
  simp

theorem filter_ge_mono (e : Int) :
    ∀ l : List Int,
      (l.filter (fun x => decide (e + 1 ≤ x))).length
        ≤ (l.filter (fun x => decide (e ≤ x))).length := by
  intro l
  induction l with
  | nil => simp
  | cons a t ih =>
    rw [List.filter_cons, List.filter_cons]
    by_cases h1 : (e + 1 : Int) ≤ a
    · have h0 : e ≤ a := by omega
      rw [if_pos (by simpa using h1), if_pos (by simpa using h0)]
      simp only [List.length_cons]
      omega
    · rw [if_neg (by simpa using h1)]
      by_cases h0 : e ≤ a
      · rw [if_pos (by simpa using h0)]
        simp only [List.length_cons]
        omega
      · rw [if_neg (by simpa using h0)]
        exact ih

theorem filter_ge_decrease (e : Int) :
    ∀ l : List Int, e ∈ l →
      (l.filter (fun x => decide (e + 1 ≤ x))).length
        < (l.filter (fun x => decide (e ≤ x))).length := by
  intro l
  induction l with
  | nil => intro h; simp at h
  | cons a t ih =>
    intro hmem
    rw [List.filter_cons, List.filter_cons]
    rcases List.mem_cons.mp hmem with rfl | hmem'
    · rw [if_neg (by simp), if_pos (by simp)]
      simp only [List.length_cons]
      have := filter_ge_mono e t
      omega
    · have hrec := ih hmem'
      by_cases h1 : (e + 1 : Int) ≤ a
      · have h0 : e ≤ a := by omega
        rw [if_pos (by simpa using h1), if_pos (by simpa using h0)]
        simp only [List.length_cons]
        omega
      · rw [if_neg (by simpa using h1)]
        by_cases h0 : e ≤ a
        · rw [if_pos (by simpa using h0)]
          simp only [List.length_cons]
          omega
        · rw [if_neg (by simpa using h0)]
          exact hrec

/-- The least integer `≥ e` that is not in `d`, found by linear search with
fuel (any fuel exceeding the number of elements of `d` that are `≥ e`
suffices). -/
def leastAbsent (d : List Int) : Int → Nat → Int
  | e, 0 => e
  | e, fuel + 1 => if e ∈ d then leastAbsent d (e + 1) fuel else e

theorem leastAbsent_spec (d : List Int) :
    ∀ (fuel : Nat) (e : Int),
      (d.filter (fun x => decide (e ≤ x))).length < fuel →
      e ≤ leastAbsent d e fuel ∧
      (∀ j : Int, e ≤ j → j < leastAbsent d e fuel → j ∈ d) ∧
      leastAbsent d e fuel ∉ d := by
  intro fuel
  induction fuel with
  | zero =>
    intro e h
    simp at h
  | succ f ih =>
    intro e h
    by_cases he : e ∈ d
    · have hdec := filter_ge_decrease e d he
      have hrec := ih (e + 1) (by omega)
      have hstep : leastAbsent d e (f + 1) = leastAbsent d (e + 1) f := by
        simp [leastAbsent, he]
      rw [hstep]
      refine ⟨by omega, ?_, hrec.2.2⟩
      intro j hj1 hj2
      by_cases hje : j = e
      · rw [hje]
        exact he
      · exact hrec.2.1 j (by omega) hj2
    · have hstep : leastAbsent d e (f + 1) = e := by
        simp [leastAbsent, he]
      rw [hstep]
      refine ⟨le_refl e, ?_, he⟩
      intro j hj1 hj2
      omega

theorem finishAudio_fileOpen (s : AudioSession) :
    (finishAudio s).1.fileOpen
      = if s.received_count = s.total_packets then false else s.fileOpen := by
  unfold finishAudio
  by_cases h1 : s.received_count = s.total_packets
  · rw [if_pos h1, if_pos h1]
    by_cases h2 : s.packets.isEmpty
    · rw [if_pos h2]
    · rw [if_neg h2]
  · rw [if_neg h1, if_neg h1]

/-- Specification of the drain loop: starting from a state whose buffered
packets are exactly the delivered-but-unwritten payloads at or beyond
`expected_seq`, and given the least sequence number `m ≥ expected_seq` that
has not been delivered, the loop writes exactly the payloads
`expected_seq, …, m - 1` in order and stops with `expected_seq = m`. -/
theorem drainAudio_spec (p : Int → List Nat) (delivered : List Int) :
    ∀ (n : Nat) (s : AudioSession), s.packets.length ≤ n →
      ∀ m : Int, s.expected_seq ≤ m →
      (∀ j : Int, s.expected_seq ≤ j → j < m → j ∈ delivered) →
      m ∉ delivered →
      1 ≤ s.expected_seq →
      (∀ k : Int, lookupKey k s.packets
        = if k ∈ delivered ∧ s.expected_seq ≤ k then some (p k) else none) →
      (s.packets.map Prod.fst).Nodup →
      s.fileData = (intRange 1 (s.expected_seq - 1).toNat).map p →
      s.received_count = s.expected_seq - 1 →
      (drainAudio s).expected_seq = m ∧
      (drainAudio s).received_count = m - 1 ∧
      (drainAudio s).fileData = (intRange 1 (m - 1).toNat).map p ∧
      (∀ k : Int, lookupKey k (drainAudio s).packets
        = if k ∈ delivered ∧ m ≤ k then some (p k) else none) ∧
      ((drainAudio s).packets.map Prod.fst).Nodup ∧
      (drainAudio s).total_packets = s.total_packets ∧
      (drainAudio s).fileOpen = s.fileOpen := by
  intro n
  induction n with
  | zero =>
    intro s hn m hm hrun hmnot hlb hpk hnd hfd hrc
    have hnil : s.packets = [] := List.length_eq_zero.mp (Nat.le_zero.mp hn)
    have hem : s.expected_seq = m := by
      by_contra hne
      have hlt : s.expected_seq < m := by omega
      have hmem := hrun s.expected_seq (le_refl _) hlt
      have := hpk s.expected_seq
      rw [if_pos ⟨hmem, le_refl _⟩, hnil] at this
      simp [lookupKey] at this
    have hnone : lookupKey s.expected_seq s.packets = none := by
      rw [hnil]
      rfl
    rw [drainAudio_none hnone]
    refine ⟨hem, by omega, by rw [hfd, hem], ?_, hnd, rfl, rfl⟩
    intro k
    rw [hpk k, hem]
  | succ n ih =>
    intro s hn m hm hrun hmnot hlb hpk hnd hfd hrc
    by_cases hin : s.expected_seq ∈ delivered
    · -- the expected packet is buffered: one iteration of the loop
      have hlt : s.expected_seq < m := by
        rcases lt_or_eq_of_le hm with h | h
        · exact h
        · exact absurd (h ▸ hin) hmnot
      have hsome : lookupKey s.expected_seq s.packets = some (p s.expected_seq) := by
        rw [hpk s.expected_seq, if_pos ⟨hin, le_refl _⟩]
      rw [drainAudio_some hsome]
      have hremlen := removeKey_length_of_lookup s.expected_seq s.packets
        (by rw [hsome]; rfl)
      have hnd2 : ((removeKey s.expected_seq s.packets).map Prod.fst).Nodup :=
        ((removeKey_sublist s.expected_seq s.packets).map Prod.fst).nodup hnd
      have hrec := ih { s with
          packets := removeKey s.expected_seq s.packets
          fileData := s.fileData ++ [p s.expected_seq]
          expected_seq := s.expected_seq + 1
          received_count := s.received_count + 1 }
        (by show (removeKey s.expected_seq s.packets).length ≤ n; omega)
        m (by show s.expected_seq + 1 ≤ m; omega)
        (by
          intro j hj1 hj2
          exact hrun j (by revert hj1; show s.expected_seq + 1 ≤ j → _; omega) hj2)
        hmnot
        (by show (1 : Int) ≤ s.expected_seq + 1; omega)
        (by
          intro k
          show lookupKey k (removeKey s.expected_seq s.packets)
              = if k ∈ delivered ∧ s.expected_seq + 1 ≤ k then some (p k) else none
          by_cases hk : k = s.expected_seq
          · rw [hk, lookupKey_removeKey_self _ _ hnd]
            rw [if_neg]
            rintro ⟨_, hge⟩
            omega
          · rw [lookupKey_removeKey_ne _ _ hk, hpk k]
            apply if_congr _ rfl rfl
            constructor
            · rintro ⟨hd, hge⟩
              exact ⟨hd, by omega⟩
            · rintro ⟨hd, hge⟩
              exact ⟨hd, by omega⟩)
        hnd2
        (by
          show s.fileData ++ [p s.expected_seq]
              = (intRange 1 (s.expected_seq + 1 - 1).toNat).map p
          exact fileData_snoc p s.expected_seq hlb s.fileData hfd)
        (by show s.received_count + 1 = s.expected_seq + 1 - 1; omega)
      exact ⟨hrec.1, hrec.2.1, hrec.2.2.1, hrec.2.2.2.1, hrec.2.2.2.2.1,
        hrec.2.2.2.2.2.1, hrec.2.2.2.2.2.2⟩
    · -- the expected packet has not been delivered: the loop stops here
      have hem : s.expected_seq = m := by
        by_contra hne
        have hlt : s.expected_seq < m := by omega
        exact hin (hrun s.expected_seq (le_refl _) hlt)
      have hnone : lookupKey s.expected_seq s.packets = none := by
        rw [hpk s.expected_seq, if_neg]
        rintro ⟨hd, _⟩
        exact hin hd
      rw [drainAudio_none hnone]
      refine ⟨hem, by omega, by rw [hfd, hem], ?_, hnd, rfl, rfl⟩
      intro k
      rw [hpk k, hem]

/-- The reachable-session invariant behind C1, relative to the set
`delivered` of sequence numbers accepted so far: `expected_seq` is one past
the longest delivered prefix, the sink holds exactly the payloads
`1, …, expected_seq - 1` in order, and the buffer holds exactly the
delivered packets beyond `expected_seq`. -/
structure GoodAudio (N : Int) (p : Int → List Nat) (delivered : List Int)
    (s : AudioSession) : Prop where
  htot : s.total_packets = N
  hopen : s.expected_seq ≤ N → s.fileOpen = true
  hexp_lb : 1 ≤ s.expected_seq
  hprefix : ∀ k : Int, 1 ≤ k → k < s.expected_seq → k ∈ delivered
  hnotdel : s.expected_seq ∉ delivered
  hfile : s.fileData = (intRange 1 (s.expected_seq - 1).toNat).map p
  hcount : s.received_count = s.expected_seq - 1
  hpk : ∀ k : Int, lookupKey k s.packets
      = if k ∈ delivered ∧ s.expected_seq < k then some (p k) else none
  hnodupk : (s.packets.map Prod.fst).Nodup
  hdel : ∀ k ∈ delivered, 1 ≤ k ∧ k ≤ N

/-- One accepted packet preserves the C1 invariant, growing the delivered
set by the packet's sequence number. -/
theorem step_good (N : Int) (p : Int → List Nat) (delivered : List Int)
    (s : AudioSession) (g : GoodAudio N p delivered s) (seq : Int)
    (hsl : 1 ≤ seq) (hsu : seq ≤ N) (hnew : seq ∉ delivered)
    (hsz : b64Length (p seq).length ≤ 11000) (hN : 1 ≤ N) :
    GoodAudio N p (seq :: delivered)
      (handle_audio_message s seq N (p seq)).1 := by
  have hexp_le : s.expected_seq ≤ N := by
    by_contra hgt
    push_neg at hgt
    exact hnew (g.hprefix seq hsl (by omega))
  have hnotlt : ¬ seq < s.expected_seq := by
    intro hlt
    exact hnew (g.hprefix seq hsl hlt)
  unfold handle_audio_message
  rw [if_neg (by omega : ¬ (seq < 1 ∨ N < seq))]
  rw [if_neg (by omega : ¬ (11000 < b64Length (p seq).length))]
  rw [if_neg (by rw [g.htot]; omega : ¬ s.total_packets = 0)]
  rw [if_neg (by rw [g.htot]; simp : ¬ s.total_packets ≠ N)]
  unfold acceptAudioPacket
  rw [if_neg (by rw [g.hopen hexp_le]; simp : ¬ s.fileOpen = false)]
  have hlook : lookupKey seq s.packets = none := by
    rw [g.hpk seq, if_neg]
    rintro ⟨hd, _⟩
    exact hnew hd
  rw [if_neg (by rw [hlook]; simpa using hnotlt :
    ¬ ((lookupKey seq s.packets).isSome ∨ seq < s.expected_seq))]
  by_cases he : seq = s.expected_seq
  · -- in-order arrival: write, drain, finish
    rw [if_pos he]
    set d' : List Int := seq :: delivered with hd'
    set m : Int := leastAbsent d' (s.expected_seq + 1) (d'.length + 1) with hmdef
    have hmspec := leastAbsent_spec d' (d'.length + 1) (s.expected_seq + 1)
      (by
        have := List.length_filter_le (fun x => decide (s.expected_seq + 1 ≤ x)) d'
        omega)
    have hdrain := drainAudio_spec p d'
      (({ s with
          fileData := s.fileData ++ [p seq]
          expected_seq := s.expected_seq + 1
          received_count := s.received_count + 1 } : AudioSession)).packets.length
      { s with
          fileData := s.fileData ++ [p seq]
          expected_seq := s.expected_seq + 1
          received_count := s.received_count + 1 }
      le_rfl m
      (by show s.expected_seq + 1 ≤ m; exact hmspec.1)
      (by
        intro j hj1 hj2
        exact hmspec.2.1 j hj1 hj2)
      hmspec.2.2
      (by show (1 : Int) ≤ s.expected_seq + 1; omega)
      (by
        intro k
        show lookupKey k s.packets
            = if k ∈ d' ∧ s.expected_seq + 1 ≤ k then some (p k) else none
        rw [g.hpk k]
        apply if_congr _ rfl rfl
        constructor
        · rintro ⟨hk, hgt⟩
          exact ⟨List.mem_cons_of_mem _ hk, by omega⟩
        · rintro ⟨hk, hge⟩
          rcases List.mem_cons.mp hk with rfl | hk'
          · omega
          · exact ⟨hk', by omega⟩)
      g.hnodupk
      (by
        show s.fileData ++ [p seq]
            = (intRange 1 (s.expected_seq + 1 - 1).toNat).map p
        rw [he] at hsz ⊢
        exact fileData_snoc p s.expected_seq g.hexp_lb s.fileData g.hfile)
      (by show s.received_count + 1 = s.expected_seq + 1 - 1; rw [g.hcount]; omega)
    set sdr : AudioSession := drainAudio { s with
        fileData := s.fileData ++ [p seq]
        expected_seq := s.expected_seq + 1
        received_count := s.received_count + 1 } with hsdr
    have hfin := finishAudio_state sdr
    have hfo := finishAudio_fileOpen sdr
    have hmub : m ≤ N + 1 := by
      by_contra hgt
      push_neg at hgt
      have hmem := hmspec.2.1 (N + 1) (by omega) (by omega)
      rcases List.mem_cons.mp hmem with heq | hmem'
      · omega
      · have := g.hdel (N + 1) hmem'
        omega
    refine ⟨?_, ?_, ?_, ?_, ?_, ?_, ?_, ?_, ?_, ?_⟩
    · rw [hfin.2.2.2.2, hdrain.2.2.2.2.2.1]
      exact g.htot
    · intro hle
      rw [hfin.1, hdrain.1] at hle
      rw [hfo, hdrain.2.1, hdrain.2.2.2.2.2.1, g.htot]
      rw [if_neg (by omega : ¬ (m - 1 = N))]
      rw [hdrain.2.2.2.2.2.2]
      exact g.hopen hexp_le
    · rw [hfin.1, hdrain.1]
      omega
    · intro k hk1 hk2
      rw [hfin.1, hdrain.1] at hk2
      by_cases hkse : k ≤ s.expected_seq
      · rcases lt_or_eq_of_le hkse with hklt | hkeq
        · exact List.mem_cons_of_mem _ (g.hprefix k hk1 hklt)
        · rw [hkeq, ← he]
          exact List.mem_cons_self _ _
      · exact hmspec.2.1 k (by omega) hk2
    · rw [hfin.1, hdrain.1]
      exact hmspec.2.2
    · rw [hfin.2.2.1, hfin.1, hdrain.1, hdrain.2.2.1]
    · rw [hfin.2.1, hfin.1, hdrain.1, hdrain.2.1]
    · intro k
      rw [hfin.2.2.2.1, hfin.1, hdrain.1]
      rw [hdrain.2.2.2.1 k]
      apply if_congr _ rfl rfl
      constructor
      · rintro ⟨hk, hge⟩
        refine ⟨hk, ?_⟩
        rcases lt_or_eq_of_le hge with h | h
        · exact h
        · exfalso
          have hm3 : m ∉ d' := hmspec.2.2
          rw [← h] at hk
          exact hm3 hk
      · rintro ⟨hk, hgt⟩
        exact ⟨hk, by omega⟩
    · rw [hfin.2.2.2.1]
      exact hdrain.2.2.2.2.1
    · intro k hk
      rcases List.mem_cons.mp hk with rfl | hk'
      · exact ⟨hsl, hsu⟩
      · exact g.hdel k hk'
  · -- out-of-order arrival: buffer the packet
    rw [if_neg he]
    have hegt : s.expected_seq < seq := by omega
    set s2 : AudioSession := { s with packets := s.packets ++ [(seq, p seq)] }
      with hs2
    have hfin := finishAudio_state s2
    have hfo := finishAudio_fileOpen s2
    refine ⟨?_, ?_, ?_, ?_, ?_, ?_, ?_, ?_, ?_, ?_⟩
    · rw [hfin.2.2.2.2]
      exact g.htot
    · intro hle
      rw [hfin.1] at hle
      rw [hfo]
      rw [if_neg (by
        show ¬ s.received_count = s.total_packets
        rw [g.hcount, g.htot]
        have : s.expected_seq ≤ N := hle
        omega)]
      exact g.hopen (by exact hle)
    · rw [hfin.1]
      exact g.hexp_lb
    · intro k hk1 hk2
      rw [hfin.1] at hk2
      exact List.mem_cons_of_mem _ (g.hprefix k hk1 hk2)
    · rw [hfin.1]
      intro hmem
      rcases List.mem_cons.mp hmem with heq | hmem'
      · exact he heq.symm
      · exact g.hnotdel hmem'
    · rw [hfin.2.2.1, hfin.1]
      exact g.hfile
    · rw [hfin.2.1, hfin.1]
      exact g.hcount
    · intro k
      rw [hfin.2.2.2.1, hfin.1]
      show lookupKey k (s.packets ++ [(seq, p seq)]) = _
      rw [lookupKey_append, g.hpk k]
      by_cases hk : k = seq
      · subst hk
        rw [if_neg (by rintro ⟨hkm, _⟩; exact hnew hkm)]
        rw [if_pos ⟨List.mem_cons_self _ _, hegt⟩]
        show lookupKey k [(k, p k)] = some (p k)
        simp [lookupKey]
      · by_cases hcond : k ∈ delivered ∧ s.expected_seq < k
        · rw [if_pos hcond, if_pos ⟨List.mem_cons_of_mem _ hcond.1, hcond.2⟩]
        · rw [if_neg hcond]
          rw [if_neg (by
            rintro ⟨hkm, hklt⟩
            rcases List.mem_cons.mp hkm with h | hk'
            · exact hk h
            · exact hcond ⟨hk', hklt⟩)]
          show lookupKey k [(seq, p seq)] = none
          simp only [lookupKey]
          rw [if_neg (fun h => hk h.symm)]
    · rw [hfin.2.2.2.1]
      show ((s.packets ++ [(seq, p seq)]).map Prod.fst).Nodup
      rw [List.map_append, List.nodup_append]
      simp only [List.map_cons, List.map_nil]
      refine ⟨g.hnodupk, List.nodup_singleton _, ?_⟩
      intro a ha hb
      rcases List.mem_singleton.mp hb with rfl
      exact (lookupKey_eq_none_iff a s.packets).mp hlook ha
    · intro k hk
      rcases List.mem_cons.mp hk with rfl | hk'
      · exact ⟨hsl, hsu⟩
      · exact g.hdel k hk'

/-- Folding the handler over any list of fresh, valid packets preserves the
invariant; the delivered set grows by exactly those sequence numbers. -/
theorem runAudio_good (N : Int) (p : Int → List Nat) (hN : 1 ≤ N) :
    ∀ (rest delivered : List Int) (s : AudioSession),
      GoodAudio N p delivered s →
      rest.Nodup →
      (∀ j ∈ rest, 1 ≤ j ∧ j ≤ N) →
      (∀ j ∈ rest, j ∉ delivered) →
      (∀ j ∈ rest, b64Length (p j).length ≤ 11000) →
      ∃ delivered' : List Int,
        GoodAudio N p delivered'
          (runAudio s (rest.map (fun j => (j, N, p j)))) ∧
        (∀ k : Int, k ∈ delivered' ↔ k ∈ rest ∨ k ∈ delivered) := by
  intro rest
  induction rest with
  | nil =>
    intro delivered s g _ _ _ _
    exact ⟨delivered, g, fun k => by simp⟩
  | cons a l ih =>
    intro delivered s g hnd hbnd hdisj hsz
    have hstep := step_good N p delivered s g a
      (hbnd a (List.mem_cons_self a l)).1
      (hbnd a (List.mem_cons_self a l)).2
      (hdisj a (List.mem_cons_self a l))
      (hsz a (List.mem_cons_self a l)) hN
    have hnd' := List.nodup_cons.mp hnd
    obtain ⟨d', hd', hiff⟩ := ih (a :: delivered)
      (handle_audio_message s a N (p a)).1 hstep hnd'.2
      (fun j hj => hbnd j (List.mem_cons_of_mem a hj))
      (by
        intro j hj hmem
        rcases List.mem_cons.mp hmem with rfl | hmem'
        · exact hnd'.1 hj
        · exact hdisj j (List.mem_cons_of_mem a hj) hmem')
      (fun j hj => hsz j (List.mem_cons_of_mem a hj))
    refine ⟨d', hd', ?_⟩
    intro k
    rw [hiff k]
    simp only [List.mem_cons]
    tauto

/-- The session right after the first-packet branch fixed the total and
opened the sink satisfies the invariant with an empty delivered set. -/
theorem init_good (N : Int) (p : Int → List Nat) :
    GoodAudio N p [] (⟨[], N, 0, 1, true, []⟩ : AudioSession) := by
  refine ⟨rfl, fun _ => rfl, le_refl 1, ?_, by simp, rfl, rfl, ?_,
    List.nodup_nil, by simp⟩
  · intro k hk1 hk2
    have hk2a : k < 1 := hk2
    exact absurd hk2a (by omega)
  · intro k
    rw [if_neg (by rintro ⟨hk, _⟩; simp at hk)]
    rfl

/-- On a packet passing validation, the handler behaves from the fresh
session exactly as from the session whose total is already fixed at the
packet's total with the sink open (the state the first-packet branch
builds). -/
theorem handle_init_valid (seq total : Int) (payload : List Nat)
    (h1 : ¬ (seq < 1 ∨ total < seq))
    (h2 : ¬ (11000 < b64Length payload.length)) :
    handle_audio_message initAudioSession seq total payload
      = handle_audio_message (⟨[], total, 0, 1, true, []⟩ : AudioSession)
          seq total payload := by
  have hseq : 1 ≤ seq ∧ seq ≤ total := by
    push_neg at h1
    omega
  unfold handle_audio_message
  rw [if_neg h1, if_neg h1, if_neg h2, if_neg h2]
  rw [if_pos (show initAudioSession.total_packets = 0 from rfl)]
  rw [if_neg (show ¬ ((⟨[], total, 0, 1, true, []⟩
      : AudioSession).total_packets = 0) from by show ¬ total = 0; omega)]
  rw [if_neg (show ¬ ((⟨[], total, 0, 1, true, []⟩
      : AudioSession).total_packets ≠ total) from by show ¬ total ≠ total; simp)]
  rfl

/-- C1: for every total `n ≥ 1`, every assignment of (valid-sized) payloads
to the sequence numbers `1..n`, and every delivery order that is a
permutation of `1..n` with all packets carrying total `n`, the sequence of
payloads written to the session's sink — and therefore the byte stream — is
exactly the concatenation of the payloads in sequence order `1..n`,
independent of the arrival order. -/
theorem audio_reassembly_order_independent (n : Nat) (hn : 1 ≤ n)
    (p : Int → List Nat)
    (hsz : ∀ j : Int, 1 ≤ j → j ≤ (n : Int) → b64Length (p j).length ≤ 11000)
    (order : List Int) (hperm : order.Perm (intRange 1 n)) :
    (runAudio initAudioSession
        (order.map (fun j => (j, (n : Int), p j)))).fileData
      = (intRange 1 n).map p ∧
    ((runAudio initAudioSession
        (order.map (fun j => (j, (n : Int), p j)))).fileData).flatten
      = ((intRange 1 n).map p).flatten := by
  have hN : (1 : Int) ≤ (n : Int) := by exact_mod_cast hn
  have hmemo : ∀ j ∈ order, 1 ≤ j ∧ j ≤ (n : Int) := by
    intro j hj
    have hj2 := hperm.mem_iff.mp hj
    rw [mem_intRange] at hj2
    omega
  have hndo : order.Nodup := hperm.nodup_iff.mpr (intRange_nodup 1 n)
  cases order with
  | nil =>
    exfalso
    have hlen := hperm.length_eq
    rw [intRange_length] at hlen
    simp at hlen
    omega
  | cons a l =>
    have ha := hmemo a (List.mem_cons_self a l)
    have hstep1 : handle_audio_message initAudioSession a (n : Int) (p a)
        = handle_audio_message (⟨[], (n : Int), 0, 1, true, []⟩
            : AudioSession) a (n : Int) (p a) := by
      apply handle_init_valid
      · omega
      · have := hsz a ha.1 ha.2
        omega
    have hrun : runAudio initAudioSession
          ((a :: l).map (fun j => (j, (n : Int), p j)))
        = runAudio (⟨[], (n : Int), 0, 1, true, []⟩ : AudioSession)
            ((a :: l).map (fun j => (j, (n : Int), p j))) := by
      show runAudio (handle_audio_message initAudioSession a (n : Int) (p a)).1
            (l.map (fun j => (j, (n : Int), p j)))
          = runAudio (handle_audio_message
              (⟨[], (n : Int), 0, 1, true, []⟩ : AudioSession)
              a (n : Int) (p a)).1 (l.map (fun j => (j, (n : Int), p j)))
      rw [hstep1]
    obtain ⟨d', hg, hiff⟩ := runAudio_good (n : Int) p hN (a :: l) []
      (⟨[], (n : Int), 0, 1, true, []⟩ : AudioSession)
      (init_good (n : Int) p) hndo hmemo (by simp)
      (fun j hj => hsz j (hmemo j hj).1 (hmemo j hj).2)
    rw [hrun]
    have hmem_d : ∀ k : Int, 1 ≤ k → k ≤ (n : Int) → k ∈ d' := by
      intro k h1 h2
      refine (hiff k).mpr (Or.inl ?_)
      refine hperm.mem_iff.mpr ?_
      rw [mem_intRange]
      exact ⟨h1, by omega⟩
    set final := runAudio (⟨[], (n : Int), 0, 1, true, []⟩ : AudioSession)
      ((a :: l).map (fun j => (j, (n : Int), p j))) with hfinal
    have hub : final.expected_seq ≤ (n : Int) + 1 := by
      by_contra hgt
      push_neg at hgt
      have hmem := hg.hprefix ((n : Int) + 1) (by omega) (by omega)
      have := hg.hdel ((n : Int) + 1) hmem
      omega
    have hlb : (n : Int) + 1 ≤ final.expected_seq := by
      by_contra hlt
      push_neg at hlt
      exact hg.hnotdel (hmem_d final.expected_seq hg.hexp_lb (by omega))
    have heq : final.expected_seq = (n : Int) + 1 := le_antisymm hub hlb
    have hfd := hg.hfile
    rw [heq] at hfd
    have htn : ((n : Int) + 1 - 1).toNat = n := by omega
    rw [htn] at hfd
    exact ⟨hfd, by rw [hfd]⟩

/-- C1 witness: two valid packets delivered in reverse order (2 then 1)
still produce the sink contents in sequence order. -/
theorem audio_reassembly_order_independent_witness :
    (runAudio initAudioSession
        ([2, 1].map (fun j => (j, ((2 : Nat) : Int),
          (fun _ : Int => [7]) j)))).fileData
      = (intRange 1 2).map (fun _ : Int => [7]) ∧
    ((runAudio initAudioSession
        ([2, 1].map (fun j => (j, ((2 : Nat) : Int),
          (fun _ : Int => [7]) j)))).fileData).flatten
      = ((intRange 1 2).map (fun _ : Int => [7])).flatten :=
  audio_reassembly_order_independent 2 (by decide) (fun _ => [7])
    (fun j h1 h2 => by show b64Length [7].length ≤ 11000; decide) [2, 1]
    (by decide)

end AudioWS

namespace VLMWS

/-- The two packet modalities of a dual VLM session (vlm_websocket.py). -/
inductive DataType where
  | audio
  | image
deriving Repr, DecidableEq

/-- State of one dual audio+image VLM session as initialized by
`handle_vlm_connect`.  Each modality has its own out-of-order buffer,
counters and sink; `current_data_type` is the in-progress modality and the
two completion flags record which modalities have finished. -/
structure VLMSession where
  audio_packets : List (Int × List Nat)
  image_packets : List (Int × List Nat)
  audio_total : Int
  image_total : Int
  audio_received : Int
  image_received : Int
  audio_expected_seq : Int
  image_expected_seq : Int
  audio_fileOpen : Bool
  image_fileOpen : Bool
  audio_fileData : List (List Nat)
  image_fileData : List (List Nat)
  end_received : Bool
  current_data_type : Option DataType
  audio_complete : Bool
  image_complete : Bool
deriving Repr, DecidableEq

def initVLMSession : VLMSession :=
  ⟨[], [], 0, 0, 0, 0, 1, 1, false, false, [], [], false, none, false, false⟩

/-- The error responses on the VLM packet path. -/
inductive VLMError where
  | seqOutOfRange
  | packetTooLarge
  | interleaving
  | audioInconsistentTotal
  | imageInconsistentTotal
  | audioNoFileHandle
  | imageNoFileHandle
  | audioDuplicate
  | imageDuplicate
  | audioIncomplete (missing : List Int)
  | imageIncomplete (missing : List Int)
deriving Repr, DecidableEq

/-- Whether the given modality has completed in the session. -/
def typeComplete (s : VLMSession) : DataType → Bool
  | .audio => s.audio_complete
  | .image => s.image_complete

/-- The drain loop of `process_audio_packet` (same shape as the plain audio
route), with fuel bounded by the buffered packet count. -/
def drainVLMAudio : Nat → VLMSession → VLMSession
  | 0, s => s
  | fuel + 1, s =>
    match AudioWS.lookupKey s.audio_expected_seq s.audio_packets with
    | some v =>
      drainVLMAudio fuel { s with
        audio_packets := AudioWS.removeKey s.audio_expected_seq s.audio_packets
        audio_fileData := s.audio_fileData ++ [v]
        audio_expected_seq := s.audio_expected_seq + 1
        audio_received := s.audio_received + 1 }
    | none => s

def drainVLMImage : Nat → VLMSession → VLMSession
  | 0, s => s
  | fuel + 1, s =>
    match AudioWS.lookupKey s.image_expected_seq s.image_packets with
    | some v =>
      drainVLMImage fuel { s with
        image_packets := AudioWS.removeKey s.image_expected_seq s.image_packets
        image_fileData := s.image_fileData ++ [v]
        image_expected_seq := s.image_expected_seq + 1
        image_received := s.image_received + 1 }
    | none => s

/-- `process_audio_packet` after its first-packet/consistency checks:
file-handle check, duplicate check, in-order write plus drain or
out-of-order buffering, then the per-modality completion check (closing the
audio sink and setting `audio_complete` only when nothing is missing). -/
def acceptVLMAudio (s : VLMSession) (seq : Int) (payload : List Nat) :
    VLMSession × Option VLMError :=
  if s.audio_fileOpen = false then (s, some .audioNoFileHandle)
  else if (AudioWS.lookupKey seq s.audio_packets).isSome
      ∨ seq < s.audio_expected_seq then
    (s, some .audioDuplicate)
  else
    let s1 :=
      if seq = s.audio_expected_seq then
        drainVLMAudio s.audio_packets.length { s with
          audio_fileData := s.audio_fileData ++ [payload]
          audio_expected_seq := s.audio_expected_seq + 1
          audio_received := s.audio_received + 1 }
      else { s with audio_packets := s.audio_packets ++ [(seq, payload)] }
    if s1.audio_received = s1.audio_total then
      if s1.audio_packets.isEmpty then
        ({ s1 with audio_fileOpen := false, audio_complete := true }, none)
      else
        ({ s1 with audio_fileOpen := false },
          some (.audioIncomplete (s1.audio_packets.map Prod.fst)))
    else (s1, none)

def acceptVLMImage (s : VLMSession) (seq : Int) (payload : List Nat) :
    VLMSession × Option VLMError :=
  if s.image_fileOpen = false then (s, some .imageNoFileHandle)
  else if (AudioWS.lookupKey seq s.image_packets).isSome
      ∨ seq < s.image_expected_seq then
    (s, some .imageDuplicate)
  else
    let s1 :=
      if seq = s.image_expected_seq then
        drainVLMImage s.image_packets.length { s with
          image_fileData := s.image_fileData ++ [payload]
          image_expected_seq := s.image_expected_seq + 1
          image_received := s.image_received + 1 }
      else { s with image_packets := s.image_packets ++ [(seq, payload)] }
    if s1.image_received = s1.image_total then
      if s1.image_packets.isEmpty then
        ({ s1 with image_fileOpen := false, image_complete := true }, none)
      else
        ({ s1 with image_fileOpen := false },
          some (.imageIncomplete (s1.image_packets.map Prod.fst)))
    else (s1, none)

/-- `process_audio_packet`: first audio packet fixes `audio_total` and opens
the audio sink; later packets must carry the same total. -/
def process_audio_packet (s : VLMSession) (seq total : Int)
    (payload : List Nat) : VLMSession × Option VLMError :=
  if s.audio_total = 0 then
    acceptVLMAudio { s with audio_total := total, audio_fileOpen := true }
      seq payload
  else if s.audio_total ≠ total then (s, some .audioInconsistentTotal)
  else acceptVLMAudio s seq payload

def process_image_packet (s : VLMSession) (seq total : Int)
    (payload : List Nat) : VLMSession × Option VLMError :=
  if s.image_total = 0 then
    acceptVLMImage { s with image_total := total, image_fileOpen := true }
      seq payload
  else if s.image_total ≠ total then (s, some .imageInconsistentTotal)
  else acceptVLMImage s seq payload

/-- The type-interleaving guard at the top of `process_data_packet`
(vlm_websocket.py lines 184-199), mirroring the nested `if`/`elif`
structure: the second component is `false` when the packet is rejected as
interleaving, and otherwise `current_data_type` is (re)assigned to the
incoming type. -/
def typeGuard (s : VLMSession) (dt : DataType) : VLMSession × Bool :=
  match s.current_data_type with
  | none => ({ s with current_data_type := some dt }, true)
  | some cur =>
    if cur ≠ dt then
      if dt = .audio ∧ s.audio_complete = false then
        if cur = .image ∧ s.image_complete = false then (s, false)
        else ({ s with current_data_type := some dt }, true)
      else if dt = .image ∧ s.image_complete = false then
        if cur = .audio ∧ s.audio_complete = false then (s, false)
        else ({ s with current_data_type := some dt }, true)
      else ({ s with current_data_type := some dt }, true)
    else (s, true)

/-- `process_data_packet`: run the interleaving guard, then dispatch to the
per-modality processing. -/
def process_data_packet (s : VLMSession) (seq total : Int) (dt : DataType)
    (payload : List Nat) : VLMSession × Option VLMError :=
  let g := typeGuard s dt
  if g.2 = false then (g.1, some .interleaving)
  else
    match dt with
    | .audio => process_audio_packet g.1 seq total payload
    | .image => process_image_packet g.1 seq total payload

/-- `handle_vlm_message` on a type-correct data packet: seq-range check,
the 50000-char encoded-size cap, then `process_data_packet`. -/
def handle_vlm_message (s : VLMSession) (seq total : Int) (dt : DataType)
    (payload : List Nat) : VLMSession × Option VLMError :=
  if seq < 1 ∨ total < seq then (s, some .seqOutOfRange)
  else if 50000 < b64Length payload.length then (s, some .packetTooLarge)
  else process_data_packet s seq total dt payload

/-- C8 counterexample, on a reachable session: complete the audio modality
(1 packet), start the image modality (packet 1 of 2, so image is
in-progress and incomplete), then send another audio packet.  Its type
differs from the in-progress type and the in-progress type has not
completed, so the claim demands an interleaving rejection — but because the
incoming type is already complete, the guard silently switches
`current_data_type` to audio and the packet is instead rejected by the
audio handler's file-handle check. -/
theorem vlm_interleaving_counterexample :
    ((handle_vlm_message (handle_vlm_message initVLMSession 1 1 .audio
        [5]).1 1 2 .image [6]).1.current_data_type = some .image ∧
      (handle_vlm_message (handle_vlm_message initVLMSession 1 1 .audio
        [5]).1 1 2 .image [6]).1.image_complete = false) ∧
    (handle_vlm_message (handle_vlm_message (handle_vlm_message
        initVLMSession 1 1 .audio [5]).1 1 2 .image [6]).1 1 1 .audio [7]).2
      = some .audioNoFileHandle ∧
    (handle_vlm_message (handle_vlm_message (handle_vlm_message
        initVLMSession 1 1 .audio [5]).1 1 2 .image [6]).1 1 1 .audio
        [7]).1.current_data_type
      = some .audio ∧
    some VLMError.audioNoFileHandle ≠ some VLMError.interleaving := by
  decide

/-- C8 (amended): when the incoming packet's type differs from
`current_data_type`, the guard rejects it with the interleaving error
exactly when BOTH the in-progress type and the incoming type are
incomplete (leaving the session unchanged); in every other case — in
particular when the incoming type itself has already completed, even though
the in-progress type has not — `current_data_type` is reassigned to the
incoming type and processing proceeds (such a packet is then rejected by
the per-modality handler's file-handle check, not the interleaving
error). -/
theorem vlm_type_guard_amended :
    (∀ (s : VLMSession) (dt cur : DataType),
      s.current_data_type = some cur → cur ≠ dt →
      ((typeGuard s dt).2 = false
        ↔ typeComplete s dt = false ∧ typeComplete s cur = false)) ∧
    (∀ (s : VLMSession) (dt : DataType),
      (typeGuard s dt).2 = false → (typeGuard s dt).1 = s) ∧
    (∀ (s : VLMSession) (dt : DataType),
      (typeGuard s dt).2 = true →
      (typeGuard s dt).1.current_data_type = some dt) ∧
    (∀ (s : VLMSession) (seq total : Int) (dt : DataType)
        (payload : List Nat),
      (typeGuard s dt).2 = false →
      process_data_packet s seq total dt payload
        = (s, some .interleaving)) := by
  have key : ∀ (s : VLMSession) (dt cur : DataType),
      s.current_data_type = some cur → cur ≠ dt →
      typeGuard s dt
        = if s.audio_complete = false ∧ s.image_complete = false
          then (s, false)
          else ({ s with current_data_type := some dt }, true) := by
    intro s dt cur hcur hne
    simp only [typeGuard, hcur]
    rw [if_pos hne]
    cases dt with
    | audio =>
      cases cur with
      | audio => exact absurd rfl hne
      | image =>
        by_cases ha : s.audio_complete = false
        · rw [if_pos ⟨rfl, ha⟩]
          by_cases hi : s.image_complete = false
          · rw [if_pos ⟨rfl, hi⟩, if_pos ⟨ha, hi⟩]
          · rw [if_neg (by rintro ⟨_, hh⟩; exact hi hh),
              if_neg (by rintro ⟨_, hh⟩; exact hi hh)]
        · rw [if_neg (by rintro ⟨_, hh⟩; exact ha hh),
            if_neg (by rintro ⟨hh, _⟩; cases hh),
            if_neg (by rintro ⟨hh, _⟩; exact ha hh)]
    | image =>
      cases cur with
      | image => exact absurd rfl hne
      | audio =>
        rw [if_neg (by rintro ⟨hh, _⟩; cases hh)]
        by_cases hi : s.image_complete = false
        · rw [if_pos ⟨rfl, hi⟩]
          by_cases ha : s.audio_complete = false
          · rw [if_pos ⟨rfl, ha⟩, if_pos ⟨ha, hi⟩]
          · rw [if_neg (by rintro ⟨_, hh⟩; exact ha hh),
              if_neg (by rintro ⟨hh, _⟩; exact ha hh)]
        · rw [if_neg (by rintro ⟨_, hh⟩; exact hi hh),
            if_neg (by rintro ⟨_, hh⟩; exact hi hh)]
  have gfalse : ∀ (s : VLMSession) (dt : DataType),
      (typeGuard s dt).2 = false →
      typeGuard s dt = (s, false) := by
    intro s dt hf
    cases hcur : s.current_data_type with
    | none =>
      exfalso
      simp [typeGuard, hcur] at hf
    | some cur =>
      by_cases hne : cur ≠ dt
      · rw [key s dt cur hcur hne] at hf ⊢
        by_cases hb : s.audio_complete = false ∧ s.image_complete = false
        · rw [if_pos hb]
        · rw [if_neg hb] at hf
          simp at hf
      · push_neg at hne
        exfalso
        simp [typeGuard, hcur, hne] at hf
  refine ⟨?_, ?_, ?_, ?_⟩
  · intro s dt cur hcur hne
    rw [key s dt cur hcur hne]
    by_cases hb : s.audio_complete = false ∧ s.image_complete = false
    · rw [if_pos hb]
      constructor
      · intro _
        constructor
        · cases dt
          · exact hb.1
          · exact hb.2
        · cases cur
          · exact hb.1
          · exact hb.2
      · intro _
        rfl
    · rw [if_neg hb]
      constructor
      · intro hh
        simp at hh
      · rintro ⟨h1, h2⟩
        exfalso
        cases dt <;> cases cur
        · exact hne rfl
        · exact hb ⟨h1, h2⟩
        · exact hb ⟨h2, h1⟩
        · exact hne rfl
  · intro s dt hf
    rw [gfalse s dt hf]
  · intro s dt ht
    cases hcur : s.current_data_type with
    | none =>
      simp [typeGuard, hcur]
    | some cur =>
      by_cases hne : cur ≠ dt
      · rw [key s dt cur hcur hne] at ht ⊢
        by_cases hb : s.audio_complete = false ∧ s.image_complete = false
        · rw [if_pos hb] at ht
          simp at ht
        · rw [if_neg hb]
      · push_neg at hne
        simp [typeGuard, hcur, hne]
  · intro s seq total dt payload hf
    unfold process_data_packet
    rw [gfalse s dt hf]
    simp

/-- C8 witness: both parts of the amended guard characterization at the
session reached mid-image with audio complete (switch allowed because the
incoming type is complete), and the interleaving rejection on a session
where both modalities are incomplete. -/
theorem vlm_type_guard_amended_witness :
    ((typeGuard ⟨[], [], 1, 2, 1, 1, 2, 2, false, true, [[5]], [[6]],
        false, some .image, true, false⟩ .audio).2 = false
      ↔ typeComplete ⟨[], [], 1, 2, 1, 1, 2, 2, false, true, [[5]], [[6]],
        false, some .image, true, false⟩ .audio = false
        ∧ typeComplete ⟨[], [], 1, 2, 1, 1, 2, 2, false, true, [[5]], [[6]],
          false, some .image, true, false⟩ .image = false) ∧
    process_data_packet ⟨[], [], 0, 2, 0, 1, 1, 2, false, true, [], [[6]],
        false, some .image, false, false⟩ 1 1 .audio [7]
      = (⟨[], [], 0, 2, 0, 1, 1, 2, false, true, [], [[6]],
          false, some .image, false, false⟩, some .interleaving) :=
  ⟨vlm_type_guard_amended.1 _ .audio .image rfl (by decide),
    vlm_type_guard_amended.2.2.2 _ 1 1 .audio [7] (by decide)⟩

end VLMWS
